import Mathlib

/-!
Verification of the raw-http-c HTTP/1.x server against its specification.

The C sources are shallowly embedded: bytes are `Nat` values (0..255), buffers
are `List Nat`, C `size_t` arithmetic is `Nat` arithmetic reduced `% 2^64`
where overflow matters, and fallible C functions that return a
`parserResult_t` error code become `Option`-valued or pair-valued Lean
functions.  Pointer reads are index reads; reading one byte past the stored
data yields 0, matching the NUL terminator the driver maintains at
`buffer[readOffset]`.

Embedded functions (with their C source):
  * `strstr_len`, `strcasestr_len`, `memchr`, `strncmp`-style comparisons
    (httpParser.c helpers);
  * `requestAndHeaderParser`, `bodyParser`, `initializeHttpInfo`,
    `checkIfApi` (httpParser.c);
  * `decodeUrl`, `normalizePath` (httpParser.c);
  * `requestHandler`, `apiHandler`, `fileHandler`, `getFileType`,
    `sendHeaders`' connection-string choice (handlers.c);
  * `handleParseError`'s error table (server.c);
  * the per-connection driver loop of `handleClient` (server.c).
-/

set_option maxRecDepth 4000

/-- Read one byte of a buffer; past-the-end reads give the NUL byte 0,
matching the driver's `buffer[readOffset] = 0` terminator. -/
def byteAt (l : List Nat) (i : Nat) : Nat := l.getD i 0

/-- Bytes of a view `(start, len)` into a buffer. -/
def sliceBytes (l : List Nat) (start len : Nat) : List Nat :=
  (l.drop start).take len

/-- Result codes of `parserResult_t` (httpParser.h, latest revision). -/
inductive ParserResult where
  | OK
  | BAD_REQUEST_LINE
  | BAD_HEADER_SYNTAX
  | INVALID_VERSION
  | INVALID_CONTENT_LENGTH
  | BODY_NOT_ALLOWED
  | MISSING_REQUIRED_HEADERS
  | UNSUPPORTED_TRANSFER_ENCODING
  | UNSUPPORTED_METHOD
  | HEADER_TOO_LARGE
  | TOO_MANY_HEADERS
  | PAYLOAD_TOO_LARGE
  | REQUEST_TIMEOUT
  | BAD_REQUEST_PATH
deriving DecidableEq, Repr

/-- First position at which `pat` occurs as a block inside `s`
(the scanning loop shared by `strstr` and `strstr_len`). -/
def findPat (s pat : List Nat) : Option Nat :=
  if pat.isPrefixOf s then some 0
  else
    match s with
    | [] => none
    | _ :: t => (findPat t pat).map (· + 1)

/-- Model of C `strstr(buffer + from, pat)`: the haystack is cut at the first
NUL byte, then scanned for `pat`; the result is an absolute index. -/
def cstrstr (l : List Nat) (i : Nat) (pat : List Nat) : Option Nat :=
  (findPat ((l.drop i).takeWhile (· ≠ 0)) pat).map (i + ·)

/-- Model of `strstr_len(haystack, needle, len)` (httpParser.c): a bounded
scan that ignores NUL bytes in the haystack; result is an index relative to
`i` (the caller adds `i` back). -/
def strstrLen (l : List Nat) (i len : Nat) (pat : List Nat) : Option Nat :=
  findPat ((l.drop i).take len) pat

/-- Model of `memchr(buf + base, c, n)` searching indices `[base, base+n)`;
returns an absolute index. -/
def memchrIn (l : List Nat) (c base n : Nat) : Option Nat :=
  (findPat ((l.drop base).take n) [c]).map (base + ·)

/-- ASCII `tolower` on a byte. -/
def asciiLower (c : Nat) : Nat := if 65 ≤ c ∧ c ≤ 90 then c + 32 else c

/-- Model of `strncasecmp(buf + i, lit, lit.length) == 0` for a NUL-free
literal `lit`: byte-wise ASCII case-insensitive equality.  (The literal
contains no NUL, so `strncasecmp`'s NUL stop can only produce a mismatch,
which plain inequality also produces.) -/
def caseEqAt (l : List Nat) (i : Nat) : List Nat → Bool
  | [] => true
  | c :: cs => asciiLower (byteAt l i) = asciiLower c && caseEqAt l (i + 1) cs

/-- Model of `strncmp(buf + i, lit, lit.length) == 0` for a NUL-free literal:
byte-wise equality. -/
def bytesEqAt (l : List Nat) (i : Nat) : List Nat → Bool
  | [] => true
  | c :: cs => byteAt l i = c && bytesEqAt l (i + 1) cs

/-- One candidate position of `strcasestr_len`'s scan: case-insensitive match
of the needle at offset `i`. -/
def scanCase (l : List Nat) (needle : List Nat) : Nat → Nat → Bool
  | _, 0 => false
  | i, fuel + 1 => caseEqAt l i needle || scanCase l needle (i + 1) fuel

/-- Model of `strcasestr_len(valStart, valLen, needle) != NULL`
(httpParser.c): scan offsets `0 .. valLen - needle.length` for a
case-insensitive match.  Empty needle returns the haystack (true). -/
def strcasestrLen (l : List Nat) (vS valLen : Nat) (needle : List Nat) : Bool :=
  if needle = [] then true
  else if needle.length > valLen then false
  else scanCase l needle vS (valLen - needle.length + 1)

/- ASCII classification helpers from <ctype.h> used by decodeUrl. -/

/-- C `isdigit` on a byte. -/
def isDigitByte (c : Nat) : Bool := 48 ≤ c ∧ c ≤ 57

/-- C `isxdigit` on a byte. -/
def isXDigitByte (c : Nat) : Bool :=
  (48 ≤ c ∧ c ≤ 57) || (97 ≤ c ∧ c ≤ 102) || (65 ≤ c ∧ c ≤ 70)

/-- Value of one hex digit, exactly as decodeUrl computes it:
`isdigit(c) ? c - '0' : toupper(c) - 'A' + 10`. -/
def hexVal (c : Nat) : Nat :=
  if isDigitByte c then c - 48
  else (if 97 ≤ c ∧ c ≤ 122 then c - 32 else c) - 65 + 10

/-- Loop of `decodeUrl` (httpParser.c).  `p` is the whole request path (used
by the overflow guard `decodedPath->len >= requestPath->len`), `src` the
suffix still to be scanned (the C index `i` is `p.length - src.length`), and
`out` the bytes written so far (the C `decodedPath->len` is `out.length`).
The only error the C function returns is `BAD_REQUEST_PATH`, modeled as
`none`. -/
def decodeGo (p : List Nat) : List Nat → List Nat → Option (List Nat)
  | [], out => some out
  | c :: rest, out =>
    if c = 37 then
      match rest with
      | h :: lo :: rest2 =>
        if ¬ isXDigitByte h ∨ ¬ isXDigitByte lo then none
        else if out.length ≥ p.length then none
        else decodeGo p rest2 (out ++ [hexVal h * 16 + hexVal lo])
      | _ => none
    else decodeGo p rest (out ++ [c])

/-- Model of `decodeUrl(requestPath, decodedPath)` (httpParser.c); returns
the decoded bytes, or `none` for `BAD_REQUEST_PATH`. -/
def decodeUrl (p : List Nat) : Option (List Nat) := decodeGo p p []

/-- Specification-side percent decoder, following the words of the claim: a
`%` must be followed by exactly two ASCII hex digits and decodes to
`high*16 + low`; every other byte is copied through unchanged. -/
def decodeSpec : List Nat → Option (List Nat)
  | [] => some []
  | c :: rest =>
    if c = 37 then
      match rest with
      | h :: lo :: rest2 =>
        if isXDigitByte h ∧ isXDigitByte lo then
          (decodeSpec rest2).map (fun t => (hexVal h * 16 + hexVal lo) :: t)
        else none
      | _ => none
    else (decodeSpec rest).map (c :: ·)

/-- Backwards scan of `normalizePath`'s pop on the reversed output:
drop leading (= trailing) bytes while more than one byte remains and the
next byte is not `'/'`. -/
def popScan : List Nat → List Nat
  | [] => []
  | [a] => [a]
  | a :: b :: t => if a ≠ 47 then popScan (b :: t) else a :: b :: t

/-- Backwards scan of `normalizePath`'s pop:
`while (out > root + 1 && *(out - 1) != '/') out--;`, expressed by scanning
the reversed buffer. -/
def popLoop (out : List Nat) : List Nat := (popScan out.reverse).reverse

/-- Inner scan of `normalizePath`'s segment extraction
(`while (src < end && *src != '/') src++;`): splits off the longest
`'/'`-free prefix. -/
def segSpan : List Nat → List Nat × List Nat
  | [] => ([], [])
  | c :: rest =>
    if c = 47 then ([], c :: rest)
    else
      let p := segSpan rest
      (c :: p.1, p.2)

/-- Loop of `normalizePath` (httpParser.c).  `cap` is `normalizedPath->len`
on entry (the distance `out_end - root`); `out` holds the bytes written so
far, so the C cursor `out - root` is `out.length`.  The only error returned
is `BAD_REQUEST_PATH`, modeled as `none`.  `fuel` makes the recursion
structural; every iteration consumes at least one input byte, so the
wrapper's `fuel = src.length` never runs out. -/
def normGo (cap : Nat) : Nat → List Nat → List Nat → Option (List Nat)
  | _, [], out => some out
  | 0, _ :: _, out => some out
  | fuel + 1, c :: rest, out =>
    if c = 47 then normGo cap fuel rest out
    else
      let seg := c :: (segSpan rest).1
      let rest' := (segSpan rest).2
      if seg = [46] then normGo cap fuel rest' out
      else if seg = [46, 46] then
        if out.length ≤ 1 then none
        else normGo cap fuel rest' (popLoop out.dropLast)
      else
        match (if out.length > 1 then
                 (if out.length + 1 ≥ cap then none else some (out ++ [47]))
               else some out) with
        | none => none
        | some out1 =>
          if out1.length + seg.length ≥ cap then none
          else normGo cap fuel rest' (out1 ++ seg)

/-- Model of `normalizePath(decodedPath, normalizedPath)` (httpParser.c):
writes the root `'/'` unconditionally, then runs the segment loop.  `cap` is
the capacity `normalizedPath->len` the caller passes in. -/
def normalizePath (decoded : List Nat) (cap : Nat) : Option (List Nat) :=
  normGo cap decoded.length decoded [47]

/-- Non-owning view `(data, len)` into the request buffer, as an offset from
the buffer start (`bufferView_t`). -/
structure BufView where
  start : Nat
  len : Nat
deriving DecidableEq, Repr

/-- One parsed header (`header_t`). -/
structure HeaderKV where
  key : BufView
  value : BufView
deriving DecidableEq, Repr

/-- Parsed request description (`httpInfo_t`, latest revision).  The owned
byte sequences `decodedPath` and `normalizedPath` are lists; their C `len`
fields are the list lengths. -/
structure HttpInfo where
  method : BufView := ⟨0, 0⟩
  path : BufView := ⟨0, 0⟩
  version : BufView := ⟨0, 0⟩
  headerCnt : Nat := 0
  headers : List HeaderKV := []
  contentLength : Nat := 0
  contentType : BufView := ⟨0, 0⟩
  isContentLengthSeen : Nat := 0
  body : BufView := ⟨0, 0⟩
  isKeepAlive : Nat := 1
  isApi : Nat := 0
  decodedPath : List Nat := []
  normalizedPath : List Nat := []
deriving DecidableEq, Repr

/-- Model of `initializeHttpInfo` (httpParser.c): resets exactly the fields
the C function resets. -/
def initializeHttpInfo (info : HttpInfo) : HttpInfo :=
  { info with contentLength := 0, isContentLengthSeen := 0, isKeepAlive := 1,
              headerCnt := 0, isApi := 0, decodedPath := [] }

/-- Number of leading space bytes of a list. -/
def countLeadSpaces : List Nat → Nat
  | [] => 0
  | c :: t => if c = 32 then countLeadSpaces t + 1 else 0

/-- Skip loop `while (p[0] == ' ') p++;` starting at index `i`: the loop
advances over exactly the run of spaces at `i` (past the end of the list the
byte is 0, so the run ends there at the latest). -/
def skipSpaces (buf : List Nat) (i : Nat) : Nat :=
  i + countLeadSpaces (buf.drop i)

/-- The `2^64` modulus of the platform `size_t`. -/
def SIZE_T_MOD : Nat := 18446744073709551616

/-- The Content-Length digit loop of `requestAndHeaderParser`: scans
`valLen` bytes from `vS`; digits accumulate into a `size_t` (wrapping
modulo `2^64`, with no overflow check), `'\r'` stops the scan, anything else
is `INVALID_CONTENT_LENGTH` (`none`). -/
def parseCLValue (buf : List Nat) (vS : Nat) : Nat → Nat → Nat → Option Nat
  | 0, _, acc => some acc
  | left + 1, k, acc =>
    let c := byteAt buf (vS + k)
    if 48 ≤ c ∧ c ≤ 57 then
      parseCLValue buf vS left (k + 1) ((acc * 10 + (c - 48)) % SIZE_T_MOD)
    else if c ≠ 13 then none
    else some acc

/-- Request-line phase of `requestAndHeaderParser` (httpParser.c): find the
first `\r\n`, split method / path / version on spaces.  Returns the three
views, or `none` for `BAD_REQUEST_LINE`. -/
def requestLine (buf : List Nat) : Option (BufView × BufView × BufView) :=
  match cstrstr buf 0 [13, 10] with
  | none => none
  | some fLE =>
    match memchrIn buf 32 0 fLE with
    | none => none
    | some mE =>
      let pS := skipSpaces buf mE
      match memchrIn buf 32 pS (fLE - pS) with
      | none => none
      | some pE =>
        let vS := skipSpaces buf pE
        some (⟨0, mE⟩, ⟨pS, pE - pS⟩, ⟨vS, fLE - vS⟩)

/-- Model of `strncmp(buf + i, lit, n) == 0` where `lit` is a NUL-terminated
C literal: byte-wise comparison that stops early at a difference or at a
NUL in either operand.  `lit.getD k 0` supplies the literal's terminator. -/
def strncmpEq (buf : List Nat) (i : Nat) (lit : List Nat) : Nat → Nat → Bool
  | 0, _ => true
  | left + 1, k =>
    let a := byteAt buf (i + k)
    let b := lit.getD k 0
    if a ≠ b then false
    else if a = 0 then true
    else strncmpEq buf i lit left (k + 1)

/-- Literal `"HTTP/1.1"`. -/
def HTTP11 : List Nat := [72, 84, 84, 80, 47, 49, 46, 49]

/-- Literal `"HTTP/1.0"`. -/
def HTTP10 : List Nat := [72, 84, 84, 80, 47, 49, 46, 48]

/-- Literal `"Content-Type"`. -/
def litContentType : List Nat := [67, 111, 110, 116, 101, 110, 116, 45, 84, 121, 112, 101]

/-- Literal `"Content-Length"`. -/
def litContentLength : List Nat :=
  [67, 111, 110, 116, 101, 110, 116, 45, 76, 101, 110, 103, 116, 104]

/-- Literal `"Connection"`. -/
def litConnection : List Nat := [67, 111, 110, 110, 101, 99, 116, 105, 111, 110]

/-- Literal `"close"`. -/
def litClose : List Nat := [99, 108, 111, 115, 101]

/-- Skip loop `while (valStart < lineEnd && *valStart == ' ') valStart++;`:
advances over the run of spaces at `i`, but not past `bound`. -/
def skipSpacesUpto (buf : List Nat) (i bound : Nat) : Nat :=
  i + countLeadSpaces ((buf.drop i).take (bound - i))

/-- Header-block loop of `requestAndHeaderParser` (httpParser.c):
each line is cut at `\r\n` (bounded search), split at the first `':'`, the
value's leading spaces are skipped, and the special headers Content-Type /
Content-Length / Connection update the request description.  `inl` is an
early error return; `inr` is the state when the loop leaves (empty line or
`headerStart ≥ headerEnd`). -/
def parseHeadersLoop (buf : List Nat) (hE : Nat) :
    Nat → Nat → HttpInfo → (ParserResult × HttpInfo) ⊕ HttpInfo
  | 0, _, info => Sum.inr info
  | fuel + 1, hS, info =>
  if hS < hE then
    let remaining := hE - hS
    match strstrLen buf hS remaining [13, 10] with
    | none => Sum.inr info
    | some r =>
      let lE := hS + r
      if lE = hS then Sum.inr info
      else
        let lineLen := lE - hS
        match memchrIn buf 58 hS lineLen with
        | none => Sum.inl (.BAD_HEADER_SYNTAX, info)
        | some colon =>
          let keyLen := colon - hS
          let vS := skipSpacesUpto buf (colon + 1) lE
          if vS = lE then Sum.inl (.BAD_HEADER_SYNTAX, info)
          else
            let valLen := lE - vS
            let hdr : HeaderKV := ⟨⟨hS, keyLen⟩, ⟨vS, valLen⟩⟩
            let withHdr := fun (st : HttpInfo) => { st with headers := st.headers ++ [hdr] }
            if keyLen = 12 ∧ caseEqAt buf hS litContentType then
              parseHeadersLoop buf hE fuel (lE + 2)
                (withHdr { info with contentType := ⟨vS, lE - vS⟩ })
            else if keyLen = 14 ∧ caseEqAt buf hS litContentLength then
              if info.isContentLengthSeen ≠ 0 then
                Sum.inl (.INVALID_CONTENT_LENGTH, info)
              else
                match parseCLValue buf vS valLen 0 0 with
                | none => Sum.inl (.INVALID_CONTENT_LENGTH, info)
                | some n =>
                  parseHeadersLoop buf hE fuel (lE + 2) (withHdr { info with contentLength := n })
            else if keyLen = 10 ∧ caseEqAt buf hS litConnection then
              if strcasestrLen buf vS valLen litClose then
                parseHeadersLoop buf hE fuel (lE + 2) (withHdr { info with isKeepAlive := 0 })
              else
                parseHeadersLoop buf hE fuel (lE + 2) (withHdr info)
            else
              parseHeadersLoop buf hE fuel (lE + 2) (withHdr info)
  else Sum.inr info

/-- Literal `"/api/"`. -/
def litApiSlash : List Nat := [47, 97, 112, 105, 47]

/-- Literal `"/api"`. -/
def litApi : List Nat := [47, 97, 112, 105]

/-- Model of `checkIfApi` (httpParser.c): an exact `/api` target or an
`/api/...` target sets `isApi` and narrows the path view. -/
def checkIfApi (buf : List Nat) (info : HttpInfo) : HttpInfo :=
  if info.path.len ≥ 5 ∧ bytesEqAt buf info.path.start litApiSlash then
    { info with isApi := 1, path := ⟨info.path.start + 4, info.path.len - 4⟩ }
  else if info.path.len = 4 ∧ bytesEqAt buf info.path.start litApi then
    { info with isApi := 1, path := ⟨info.path.start, 1⟩ }
  else info

/-- Model of `requestAndHeaderParser(buffer, headerEnd, headerArray,
uninitializedHttpInfo)` (httpParser.c, latest revision).  `buf` holds the
bytes from the request start, `hE` is the index of `headerEnd`
(the driver passes the middle of `\r\n\r\n`).  Returns the C result code
together with the populated `httpInfo_t`. -/
def requestAndHeaderParser (buf : List Nat) (hE : Nat) : ParserResult × HttpInfo :=
  let info0 := initializeHttpInfo {}
  match requestLine buf with
  | none => (.BAD_REQUEST_LINE, info0)
  | some (m, p, v) =>
    let info1 := { info0 with method := m, path := p, version := v }
    if strncmpEq buf v.start HTTP11 v.len 0 = false then (.INVALID_VERSION, info1)
    else
      let hS := (v.start + v.len) + 2
      if hS ≥ hE then (.MISSING_REQUIRED_HEADERS, info1)
      else
        match parseHeadersLoop buf hE (hE - hS) hS { info1 with headers := [] } with
        | Sum.inl err => err
        | Sum.inr info2 =>
          let info3 := { info2 with headerCnt := info2.headers.length }
          if byteAt buf 0 = 71 ∧ info3.contentLength ≠ 0 then
            (.BODY_NOT_ALLOWED, info3)
          else (.OK, checkIfApi buf info3)

/-- Model of `bodyParser(bodyStart, httpInfo)` (httpParser.c): records the
body view; always returns `OK`. -/
def bodyParser (bodyStart : Nat) (info : HttpInfo) : ParserResult × HttpInfo :=
  (.OK, { info with body := ⟨bodyStart, info.contentLength⟩ })

/-- Response value (`response_t`, handlers.h latest revision).  `body = none`
models the C NULL pointer; the zero-initialized designated-initializer
fields are the defaults. -/
structure Response where
  statusCode : Nat := 0
  statusText : String := ""
  body : Option (List Nat) := none
  bodyLen : Nat := 0
  shouldClose : Nat := 0
  fileSize : Nat := 0
  fileDescriptor : Int := -1
  contentType : String := "text/plain"
deriving Repr

/-- Model of `initializeResponse` (handlers.c). -/
def initializeResponse : Response := {}

/-- Model of `setInternalServerError` (handlers.c). -/
def setInternalServerError (r : Response) : Response :=
  { r with statusCode := 500, statusText := "Internal Server Error", bodyLen := 0 }

/-- Literal `"Route Not Found"`. -/
def litRouteNotFound : List Nat := [82,111,117,116,101,32,78,111,116,32,70,111,117,110,100]

/-- Model of `setNotFoundError` (handlers.c); the `malloc` is modeled as
succeeding. -/
def setNotFoundError (r : Response) : Response :=
  { r with statusCode := 404, statusText := "Not Found", bodyLen := 15,
           body := some litRouteNotFound }

/-- Literal `"Forbidden file route"`. -/
def litForbidden : List Nat :=
  [70,111,114,98,105,100,100,101,110,32,102,105,108,101,32,114,111,117,116,101]

/-- Model of `setForbiddenFileRoute` (handlers.c). -/
def setForbiddenFileRoute (r : Response) : Response :=
  { r with statusCode := 403, statusText := "Forbidden", bodyLen := 20,
           body := some litForbidden }

/-- API routes (`apiRoutes_t`). -/
inductive ApiRoute where
  | ROUTE_ROOT
  | ROUTE_ECHO
  | ROUTE_NOT_FOUND
  | ROUTE_UNKNOWN_METHOD
deriving DecidableEq, Repr

/-- Literal `"Hello"`. -/
def litHello : List Nat := [72,101,108,108,111]

/-- Literal `"This request method is currently unsupported"`. -/
def litMethodUnsupported : List Nat :=
  [84,104,105,115,32,114,101,113,117,101,115,116,32,109,101,116,104,111,100,32,105,115,32,99,117,114,114,101,110,116,108,121,32,117,110,115,117,112,112,111,114,116,101,100]

/-- Model of `apiHandler` (handlers.c).  `bodyBytes` resolves the
`httpInfo->body` view against the request buffer; `malloc` is modeled as
succeeding. -/
def apiHandler (r : Response) (bodyBytes : List Nat) (route : ApiRoute) : Response :=
  let r := { r with contentType := "text/plain" }
  match route with
  | .ROUTE_ROOT =>
    { r with statusCode := 200, statusText := "OK", bodyLen := 5, body := some litHello }
  | .ROUTE_ECHO =>
    { r with statusCode := 200, statusText := "OK", bodyLen := bodyBytes.length,
             body := some bodyBytes }
  | .ROUTE_UNKNOWN_METHOD =>
    { r with statusCode := 405, statusText := "Method Not Allowed", bodyLen := 44,
             body := some litMethodUnsupported }
  | .ROUTE_NOT_FOUND => setNotFoundError r

/-- Outcome of the file-system calls made by `fileHandler` for a given
relative path; this abstracts `openat` + `fstat` (external effects). -/
inductive FileOutcome where
  | notFound          -- openat fails with ENOENT or ENOTDIR
  | permissionDenied  -- openat fails with EACCES
  | openOtherError    -- openat fails with any other errno
  | statError         -- openat succeeds, fstat fails
  | notRegular        -- fstat says not a regular file
  | regular (size : Nat)
deriving DecidableEq, Repr

/-- Literal `"index.html"`. -/
def litIndexHtml : List Nat := [105,110,100,101,120,46,104,116,109,108]

/-- Last index of byte `c` in `l` (C `strrchr`). -/
def lastIdxOf (l : List Nat) (c : Nat) : Option Nat :=
  (findPat l.reverse [c]).map (fun r => l.length - 1 - r)

/-- Model of `getFileType` (handlers.c): content type from the extension
after the last `'.'` of the relative path. -/
def getFileType (rel : List Nat) : String :=
  match lastIdxOf rel 46 with
  | none => "application/octet-stream"
  | some i =>
    if i = rel.length - 1 then "application/octet-stream"
    else
      let ext := rel.drop (i + 1)
      if ext = [104,116,109,108] then "text/html"
      else if ext = [99,115,115] then "text/css"
      else if ext = [106,115] then "application/javascript"
      else if ext = [112,110,103] then "image/png"
      else "text/plain"

/-- Model of `fileHandler` (handlers.c).  The relative path is the
normalized path minus its leading `'/'`, cut at the first NUL (the C copy is
used as a NUL-terminated string); an empty path becomes `index.html`.  The
file-system outcome is supplied by `fs`. -/
def fileHandler (r : Response) (info : HttpInfo) (fs : List Nat → FileOutcome) : Response :=
  let r0 := (info.normalizedPath.drop 1).takeWhile (· ≠ 0)
  let rel := if r0 = [] then litIndexHtml else r0
  match fs rel with
  | .notFound => setNotFoundError r
  | .permissionDenied => setForbiddenFileRoute r
  | .openOtherError => setInternalServerError r
  | .statError => setInternalServerError { r with contentType := getFileType rel }
  | .notRegular => setForbiddenFileRoute { r with contentType := getFileType rel }
  | .regular size =>
    { r with contentType := getFileType rel, statusCode := 200, statusText := "OK",
             fileSize := size, fileDescriptor := 0 }

/-- Literal `"GET"`. -/
def litGET : List Nat := [71,69,84]

/-- Literal `"POST"`. -/
def litPOST : List Nat := [80,79,83,84]

/-- Literal `"/echo"`. -/
def litEcho : List Nat := [47,101,99,104,111]

/-- Model of `requestHandler(httpInfo, root_fd)` (handlers.c).  `buf` is the
request buffer (needed to resolve the method and body views), `fs` the
file-system outcome for static routes. -/
def requestHandler (buf : List Nat) (info : HttpInfo) (fs : List Nat → FileOutcome) :
    Response :=
  let r0 := initializeResponse
  let r := if info.isKeepAlive = 0 then { r0 with shouldClose := 1 } else r0
  let np := info.normalizedPath
  let bodyBytes := sliceBytes buf info.body.start info.body.len
  if info.isApi ≠ 0 then
    if info.method.len = 3 ∧ bytesEqAt buf info.method.start litGET then
      if np.length = 1 ∧ np.getD 0 0 = 47 then apiHandler r bodyBytes .ROUTE_ROOT
      else apiHandler r bodyBytes .ROUTE_NOT_FOUND
    else if info.method.len = 4 ∧ bytesEqAt buf info.method.start litPOST then
      if np.length = 5 ∧ np.take 5 = litEcho then apiHandler r bodyBytes .ROUTE_ECHO
      else apiHandler r bodyBytes .ROUTE_NOT_FOUND
    else apiHandler r bodyBytes .ROUTE_UNKNOWN_METHOD
  else
    if info.method.len = 3 ∧ bytesEqAt buf info.method.start litGET then
      fileHandler r info fs
    else apiHandler r bodyBytes .ROUTE_UNKNOWN_METHOD

/-- Connection string chosen by `sendHeaders` (handlers.c):
`response->shouldClose ? "close" : "keep-alive"`. -/
def sendHeadersConnClose (r : Response) : Bool := r.shouldClose ≠ 0

/-- HTTP status of a parser error according to the `error_table` of server.c
(latest revision); unknown codes fall back to 400. -/
def errStatus : ParserResult → Nat
  | .BAD_REQUEST_LINE => 400
  | .BAD_HEADER_SYNTAX => 400
  | .INVALID_VERSION => 505
  | .INVALID_CONTENT_LENGTH => 400
  | .BODY_NOT_ALLOWED => 400
  | .MISSING_REQUIRED_HEADERS => 400
  | .UNSUPPORTED_TRANSFER_ENCODING => 501
  | .UNSUPPORTED_METHOD => 405
  | .HEADER_TOO_LARGE => 431
  | .TOO_MANY_HEADERS => 400
  | .PAYLOAD_TOO_LARGE => 413
  | .REQUEST_TIMEOUT => 408
  | .BAD_REQUEST_PATH => 400
  | .OK => 400

/-- The wire response emitted for one framed request: either a
status-only error response written by `handleParseError` (always
`Connection: close`), or a normal response sent by
`sendHeaders`/`sendBody`/`sendFileStream`. -/
inductive Emitted where
  | errorResp (status : Nat)
  | normalResp (r : Response)
deriving Repr

/-- Status code of an emitted response. -/
def Emitted.status : Emitted → Nat
  | .errorResp s => s
  | .normalResp r => r.statusCode

/-- Body bytes of an emitted response (`handleParseError` bodies are empty). -/
def Emitted.bodyBytes : Emitted → Option (List Nat)
  | .errorResp _ => none
  | .normalResp r => r.body

/-- Whether the emitted `Connection` header is `close`:
`handleParseError` hard-codes `close`; `sendHeaders` chooses by
`shouldClose`. -/
def Emitted.connClose : Emitted → Bool
  | .errorResp _ => true
  | .normalResp r => sendHeadersConnClose r

/-- Whether the response came from the `handleParseError` error path. -/
def Emitted.isError : Emitted → Bool
  | .errorResp _ => true
  | .normalResp _ => false

/-- The per-request part of `handleClient` (server.c, latest revision):
parse the header block ending at the `\r\n\r\n` found at index `m`, parse
the body, percent-decode and normalize the path, and route.  `normCap`
models the capacity `normalizePath` is given for its output: in the C source
`httpInfo.normalizedPath.len` is read uninitialized at this point (and
`normalizedPath.data` is assigned the function `normalizePath` instead of
the freshly allocated buffer — two driver defects), so the capacity is an
arbitrary parameter here; the allocation made for the output actually has
`decodedPath.len` bytes.  `fs` abstracts the file system. -/
def processRequest (buf : List Nat) (m : Nat) (normCap : Nat)
    (fs : List Nat → FileOutcome) : Emitted :=
  let parsed := requestAndHeaderParser buf (m + 2)
  if parsed.1 ≠ .OK then .errorResp (errStatus parsed.1)
  else
    let headerSize := m + 4
    let info1 := (bodyParser headerSize parsed.2).2
    let pathBytes := sliceBytes buf info1.path.start info1.path.len
    match decodeUrl pathBytes with
    | none => .errorResp (errStatus .BAD_REQUEST_PATH)
    | some dec =>
      match normalizePath dec normCap with
      | none => .errorResp (errStatus .BAD_REQUEST_PATH)
      | some norm =>
        let info2 := { info1 with decodedPath := dec, normalizedPath := norm }
        .normalResp (requestHandler buf info2 fs)

/-- Per-connection buffer state of `handleClient` (server.c):
`content` is the stored bytes `buffer[0 .. readOffset)`; `cap` is
`bufferSize`; `readOff`/`parseOff` are the two cursors. -/
structure DriverState where
  content : List Nat
  cap : Nat
  readOff : Nat
  parseOff : Nat
deriving DecidableEq, Repr

/-- Initial per-connection state: `BUFFER_SIZE = 4096`, empty buffer. -/
def driverInit : DriverState :=
  { content := [], cap := 4096, readOff := 0, parseOff := 0 }

/-- One observable step of `handleClient`'s loops.  `read chunk` is one
socket read delivering (a prefix of) `chunk`; `parseIter normCap` is one
iteration of the inner framing loop (`normCap` models the uninitialized
normalization capacity, see `processRequest`); `shift` is the buffer
shift after the inner loop. -/
inductive DriverEvent where
  | read (chunk : List Nat)
  | parseIter (normCap : Nat)
  | shift

/-- One driver step.  `none` means the connection terminates (client close,
read error, parse error response, 413/500, or `shouldClose`). -/
def driverStep (fs : List Nat → FileOutcome) (s : DriverState) :
    DriverEvent → Option DriverState
  | .read chunk =>
    -- read(new_socket, buffer + readOffset, bufferSize - 1 - readOffset)
    let n := min chunk.length (s.cap - 1 - s.readOff)
    if n = 0 then none
    else some { s with content := s.content ++ chunk.take n, readOff := s.readOff + n }
  | .parseIter normCap =>
    -- strstr(buffer + parseOffset, "\r\n\r\n") stops at the first NUL byte
    match findPat ((s.content.drop s.parseOff).takeWhile (· ≠ 0)) [13, 10, 13, 10] with
    | none => some s
    | some m =>
      let reqBuf := s.content.drop s.parseOff
      let parsed := requestAndHeaderParser reqBuf (m + 2)
      if parsed.1 ≠ .OK then none
      else
        let total := (m + 4) + parsed.2.contentLength
        if total > s.cap then
          if total > 16384 then none  -- PAYLOAD_TOO_LARGE, MAX_REQUEST_LIMIT
          else
            -- realloc(buffer, totalRequestSize + 1); success modeled
            let s' := { s with cap := total + 1 }
            if s'.readOff < s'.parseOff + total then some s'
            else
              match processRequest reqBuf m normCap fs with
              | .errorResp _ => none
              | .normalResp r =>
                if r.shouldClose = 1 then none
                else some { s' with parseOff := s'.parseOff + total }
        else
          if s.readOff < s.parseOff + total then some s
          else
            match processRequest reqBuf m normCap fs with
            | .errorResp _ => none
            | .normalResp r =>
              if r.shouldClose = 1 then none
              else some { s with parseOff := s.parseOff + total }
  | .shift =>
    -- memmove of the remaining bytes, then readOffset = remaining, parseOffset = 0
    some { content := s.content.drop s.parseOff, cap := s.cap,
           readOff := s.readOff - s.parseOff, parseOff := 0 }

/-- Run of the driver from the initial state over a list of steps. -/
def runDriver (fs : List Nat → FileOutcome) (evs : List DriverEvent) : Option DriverState :=
  evs.foldl (fun os e => os.bind (fun s => driverStep fs s e)) (some driverInit)

-- scratch checks (removed at the end)
  -- "/a/b/../c/../../.." => some "/" (no error!)

-- C3dup = "POST / HTTP/1.1\r\nContent-Length: 5\r\nContent-Length: 6\r\n\r\n"
def C3dupBuf : List Nat := [80,79,83,84,32,47,32,72,84,84,80,47,49,46,49,13,10,67,111,110,116,101,110,116,45,76,101,110,103,116,104,58,32,53,13,10,67,111,110,116,101,110,116,45,76,101,110,103,116,104,58,32,54,13,10,13,10]


-- C3ovf = "POST / HTTP/1.1\r\nContent-Length: 18446744073709551616\r\n\r\n"
def C3ovfBuf : List Nat := [80,79,83,84,32,47,32,72,84,84,80,47,49,46,49,13,10,67,111,110,116,101,110,116,45,76,101,110,103,116,104,58,32,49,56,52,52,54,55,52,52,48,55,51,55,48,57,53,53,49,54,49,54,13,10,13,10]

-- C4a = "GET / HTTP/1.0\r\nHost: a\r\n\r\n" (m=23, hE=25)
def C4aBuf : List Nat := [71,69,84,32,47,32,72,84,84,80,47,49,46,48,13,10,72,111,115,116,58,32,97,13,10,13,10]
-- C4b = "GET / HTTP\r\nHost: a\r\n\r\n" (m=19, hE=21)
def C4bBuf : List Nat := [71,69,84,32,47,32,72,84,84,80,13,10,72,111,115,116,58,32,97,13,10,13,10]

-- C9buf = "GET / HTTP/1.1\r\nTransfer-Encoding: chunked\r\n\r\n" (m=42, hE=44)
def C9Buf : List Nat := [71,69,84,32,47,32,72,84,84,80,47,49,46,49,13,10,84,114,97,110,115,102,101,114,45,69,110,99,111,100,105,110,103,58,32,99,104,117,110,107,101,100,13,10,13,10]

-- C6buf = "POST /api/echo HTTP/1.1\r\nContent-Length: 5\r\n\r\nabcde" (m=42)
def C6Buf : List Nat := [80,79,83,84,32,47,97,112,105,47,101,99,104,111,32,72,84,84,80,47,49,46,49,13,10,67,111,110,116,101,110,116,45,76,101,110,103,116,104,58,32,53,13,10,13,10,97,98,99,100,101]

/-- Claim-side predicate (from the claim's words): processing the input's
segments with an abstract segment stack of depth `d`, does some `..` segment
arrive when nothing is pushed?  `.` segments are dropped, `..` pops, any
other segment pushes. -/
def popsBelowRootFrom : Nat → List Nat → Nat → Bool
  | _, [], _ => false
  | 0, _ :: _, _ => false
  | fuel + 1, c :: rest, d =>
    if c = 47 then popsBelowRootFrom fuel rest d
    else
      let seg := c :: (segSpan rest).1
      let rest' := (segSpan rest).2
      if seg = [46] then popsBelowRootFrom fuel rest' d
      else if seg = [46, 46] then
        if d = 0 then true else popsBelowRootFrom fuel rest' (d - 1)
      else popsBelowRootFrom fuel rest' (d + 1)

/-- Claim-side predicate: the input's abstract segment stack pops below the
root at some point. -/
def popsBelowRoot (p : List Nat) : Bool := popsBelowRootFrom p.length p 0

/-- Whether the first segment that is neither empty nor `.` is `..`
(the input tries to escape the root before anything was pushed). -/
def leadingDotDotF : Nat → List Nat → Bool
  | _, [] => false
  | 0, _ :: _ => false
  | fuel + 1, c :: rest =>
    if c = 47 then leadingDotDotF fuel rest
    else
      let seg := c :: (segSpan rest).1
      let rest' := (segSpan rest).2
      if seg = [46] then leadingDotDotF fuel rest'
      else seg = [46, 46]

/-- Whether the first segment that is neither empty nor `.` is `..`. -/
def leadingDotDot (p : List Nat) : Bool := leadingDotDotF p.length p

/-- Whether the input contains a `..` segment at all. -/
def hasDotDotSegF : Nat → List Nat → Bool
  | _, [] => false
  | 0, _ :: _ => false
  | fuel + 1, c :: rest =>
    if c = 47 then hasDotDotSegF fuel rest
    else
      let seg := c :: (segSpan rest).1
      let rest' := (segSpan rest).2
      (seg = [46, 46] : Bool) || hasDotDotSegF fuel rest'

/-- Whether the input contains a `..` segment at all. -/
def hasDotDotSeg (p : List Nat) : Bool := hasDotDotSegF p.length p

/-- Split a byte list at `'/'` bytes (both outer ends produce a component, so
`"/a//b"` gives `["", "a", "", "b"]`). -/
def splitSlash : List Nat → List (List Nat)
  | [] => [[]]
  | c :: rest =>
    match splitSlash rest with
    | s :: ss => if c = 47 then [] :: s :: ss else (c :: s) :: ss
    | [] => [[c]]

/-- No two adjacent `'/'` bytes. -/
def noAdjSlash : List Nat → Bool
  | [] => true
  | [_] => true
  | a :: b :: t => !(a = 47 && b = 47) && noAdjSlash (b :: t)

/-- The file-system stub used in concrete witnesses: every open fails with
ENOENT.  (API-route witnesses never consult it.) -/
def fsAbsent : List Nat → FileOutcome := fun _ => .notFound

/-- C7 counterexample request: the bytes of
`"POST / HTTP/1.1\r\nContent-Length: 16342\r\n\r\n"` (42 bytes; the
`\r\n\r\n` starts at index 38, so the total request size is
`42 + 16342 = 16384`). -/
def C7Req : List Nat := [80,79,83,84,32,47,32,72,84,84,80,47,49,46,49,13,10,67,111,110,116,101,110,116,45,76,101,110,103,116,104,58,32,49,54,51,52,50,13,10,13,10]

/-- Counterexample input of C1: the bytes of `"/a/b/../c/../../.."`. -/
def c1EscapeInput : List Nat :=
  [47,97,47,98,47,46,46,47,99,47,46,46,47,46,46,47,46,46]

/-- Counterexample input of C2: the bytes of `"/a/b/../c"`. -/
def c2Input : List Nat := [47,97,47,98,47,46,46,47,99]

-- scratch

/-- Buffer-threading translation of the request-line phase: the buffer
state is passed through every step and returned (no step stores to it). -/
def requestLineT (buf : List Nat) :
    Option (BufView × BufView × BufView) × List Nat :=
  match cstrstr buf 0 [13, 10] with
  | none => (none, buf)
  | some fLE =>
    match memchrIn buf 32 0 fLE with
    | none => (none, buf)
    | some mE =>
      let pS := skipSpaces buf mE
      match memchrIn buf 32 pS (fLE - pS) with
      | none => (none, buf)
      | some pE =>
        let vS := skipSpaces buf pE
        (some (⟨0, mE⟩, ⟨pS, pE - pS⟩, ⟨vS, fLE - vS⟩), buf)

/-- Buffer-threading translation of the header loop: every iteration
receives the buffer state and returns it together with its result.  All
statements of the C loop read the buffer or store into `httpInfo` and the
header array; none stores through the buffer pointer, so every branch
returns the buffer it received. -/
def parseHeadersLoopT (buf : List Nat) (hE : Nat) :
    Nat → Nat → HttpInfo → ((ParserResult × HttpInfo) ⊕ HttpInfo) × List Nat
  | 0, _, info => (Sum.inr info, buf)
  | fuel + 1, hS, info =>
  if hS < hE then
    let remaining := hE - hS
    match strstrLen buf hS remaining [13, 10] with
    | none => (Sum.inr info, buf)
    | some r =>
      let lE := hS + r
      if lE = hS then (Sum.inr info, buf)
      else
        let lineLen := lE - hS
        match memchrIn buf 58 hS lineLen with
        | none => (Sum.inl (.BAD_HEADER_SYNTAX, info), buf)
        | some colon =>
          let keyLen := colon - hS
          let vS := skipSpacesUpto buf (colon + 1) lE
          if vS = lE then (Sum.inl (.BAD_HEADER_SYNTAX, info), buf)
          else
            let valLen := lE - vS
            let hdr : HeaderKV := ⟨⟨hS, keyLen⟩, ⟨vS, valLen⟩⟩
            let withHdr := fun (st : HttpInfo) =>
              { st with headers := st.headers ++ [hdr] }
            if keyLen = 12 ∧ caseEqAt buf hS litContentType then
              parseHeadersLoopT buf hE fuel (lE + 2)
                (withHdr { info with contentType := ⟨vS, lE - vS⟩ })
            else if keyLen = 14 ∧ caseEqAt buf hS litContentLength then
              if info.isContentLengthSeen ≠ 0 then
                (Sum.inl (.INVALID_CONTENT_LENGTH, info), buf)
              else
                match parseCLValue buf vS valLen 0 0 with
                | none => (Sum.inl (.INVALID_CONTENT_LENGTH, info), buf)
                | some n =>
                  parseHeadersLoopT buf hE fuel (lE + 2)
                    (withHdr { info with contentLength := n })
            else if keyLen = 10 ∧ caseEqAt buf hS litConnection then
              if strcasestrLen buf vS valLen litClose then
                parseHeadersLoopT buf hE fuel (lE + 2)
                  (withHdr { info with isKeepAlive := 0 })
              else
                parseHeadersLoopT buf hE fuel (lE + 2) (withHdr info)
            else
              parseHeadersLoopT buf hE fuel (lE + 2) (withHdr info)
  else (Sum.inr info, buf)

/-- Buffer-threading translation of `requestAndHeaderParser`: returns the
parse result together with the final buffer state. -/
def requestAndHeaderParserT (buf : List Nat) (hE : Nat) :
    (ParserResult × HttpInfo) × List Nat :=
  let info0 := initializeHttpInfo {}
  match requestLineT buf with
  | (none, buf1) => ((.BAD_REQUEST_LINE, info0), buf1)
  | (some (m, p, v), buf1) =>
    let info1 := { info0 with method := m, path := p, version := v }
    if strncmpEq buf1 v.start HTTP11 v.len 0 = false then
      ((.INVALID_VERSION, info1), buf1)
    else
      let hS := (v.start + v.len) + 2
      if hS ≥ hE then ((.MISSING_REQUIRED_HEADERS, info1), buf1)
      else
        match parseHeadersLoopT buf1 hE (hE - hS) hS { info1 with headers := [] } with
        | (Sum.inl err, buf2) => (err, buf2)
        | (Sum.inr info2, buf2) =>
          let info3 := { info2 with headerCnt := info2.headers.length }
          if byteAt buf2 0 = 71 ∧ info3.contentLength ≠ 0 then
            ((.BODY_NOT_ALLOWED, info3), buf2)
          else ((.OK, checkIfApi buf2 info3), buf2)

/-- Buffer-threading translation of `bodyParser`: it stores the body view in
`httpInfo` and does not touch the buffer. -/
def bodyParserT (buf : List Nat) (bodyStart : Nat) (info : HttpInfo) :
    (ParserResult × HttpInfo) × List Nat :=
  ((.OK, { info with body := ⟨bodyStart, info.contentLength⟩ }), buf)

/-- Strengthened per-connection buffer invariant: the stored bytes match
`readOffset`, the cursors are ordered, one byte is reserved for the NUL
terminator, and the capacity stays between `BUFFER_SIZE` and
`MAX_REQUEST_LIMIT + 1`. -/
def DriverInv (s : DriverState) : Prop :=
  s.content.length = s.readOff ∧ s.parseOff ≤ s.readOff ∧
    s.readOff + 1 ≤ s.cap ∧ 4096 ≤ s.cap ∧ s.cap ≤ 16385

/-- Render a list of segments joined by single `'/'` bytes. -/
def interSlash : List (List Nat) → List Nat
  | [] => []
  | [s] => s
  | s :: ss => s ++ 47 :: interSlash ss

/-- A well-formed pushed segment: nonempty, slash-free, neither `.` nor `..`. -/
def SegOk (s : List Nat) : Prop := s ≠ [] ∧ 47 ∉ s ∧ s ≠ [46] ∧ s ≠ [46, 46]

/-- Claim-side reading of "the request's Connection header value contains
`close` (case-insensitively)", expressed over one parsed header: the name is
the 10 bytes `Connection` (compared case-insensitively, as the parser does)
and the value contains `close` case-insensitively. -/
def connCloseHdr (buf : List Nat) (h : HeaderKV) : Prop :=
  h.key.len = 10 ∧ caseEqAt buf h.key.start litConnection = true ∧
    strcasestrLen buf h.value.start h.value.len litClose = true

/-- Claim-side byte-prefix test: is `l1` an initial run of `l2`? -/
def isBytePrefix : List Nat → List Nat → Bool
  | [], _ => true
  | _ :: _, [] => false
  | a :: l1, b :: l2 => a = b && isBytePrefix l1 l2

/-- C1 counterexample: the input `/a/b/../c/../../..` pops its abstract
segment stack below the root (`popsBelowRoot`), yet `normalizePath` (with
the capacity equal to the input length, as allocated by the driver) succeeds
and returns `/`.  The claim demanded `BadRequestPath` for every such input:
after a pop-then-push the buffer holds a redundant `/` (here `/a//c`), and a
later `..` consumes that residue instead of a real segment. -/
theorem c1_escape_not_rejected :
    popsBelowRoot c1EscapeInput = true ∧
      normalizePath c1EscapeInput 18 = some [47] := by
  constructor
  · decide
  · decide

/-- C2 counterexample: `normalizePath` maps `/a/b/../c` (capacity 9) to
`/a//c`, which contains two adjacent slashes, and normalizing that output
again gives the different byte string `/a/c`.  Both the idempotence and the
no-redundant-separator parts of the claim fail. -/
theorem c2_not_idempotent :
    normalizePath c2Input 9 = some [47,97,47,47,99] ∧
      noAdjSlash [47,97,47,47,99] = false ∧
      normalizePath [47,97,47,47,99] 9 = some [47,97,47,99] := by
  refine ⟨by decide, by decide, by decide⟩

/-- C3 failing input, part 1: a request with two Content-Length headers
(values 5 and 6).  `isContentLengthSeen` is initialized to 0 and tested, but
never set to 1, so the duplicate is accepted and the second value wins. -/
theorem c3_duplicate_content_length_accepted :
    (requestAndHeaderParser C3dupBuf 55).1 = .OK ∧
      (requestAndHeaderParser C3dupBuf 55).2.contentLength = 6 := by
  refine ⟨by decide, by decide⟩

/-- C3 failing input, part 2: a Content-Length of `2^64` (one beyond the
largest `size_t`) wraps to 0 without any error: the digit loop has no
overflow check. -/
theorem c3_overflow_wraps :
    (requestAndHeaderParser C3ovfBuf 55).1 = .OK ∧
      (requestAndHeaderParser C3ovfBuf 55).2.contentLength = 0 := by
  refine ⟨by decide, by decide⟩

/-- C4 counterexample: the version check is
`strncmp(versionStart, "HTTP/1.1", versionLength)`, which accepts every
byte prefix of `HTTP/1.1`.  So `GET / HTTP/1.0 …` is rejected with
`INVALID_VERSION` (the claim demanded acceptance with `keep_alive = false`)
while the truncated token in `GET / HTTP …` is accepted (the claim demanded
`InvalidVersion` for every token other than `HTTP/1.1`/`HTTP/1.0`). -/
theorem c4_version_counterexample :
    (requestAndHeaderParser C4aBuf 25).1 = .INVALID_VERSION ∧
      (requestAndHeaderParser C4bBuf 21).1 = .OK := by
  refine ⟨by decide, by decide⟩

/-- C9 counterexample: a request bearing `Transfer-Encoding: chunked`
parses with result `OK`; `requestAndHeaderParser` has no Transfer-Encoding
check, so the `UNSUPPORTED_TRANSFER_ENCODING`/501 path demanded by the claim
is never taken. -/
theorem c9_transfer_encoding_accepted :
    (requestAndHeaderParser C9Buf 44).1 = .OK := by decide

/-- C6 failing input: `POST /api/echo` with body `abcde` and matching
Content-Length.  With the capacity that the driver actually allocated for
the normalized path (`decodedPath.len = 5`), `normalizePath`'s `>=` bound
rejects `/echo` and the pipeline answers 400, not the claimed 200 echo;
with a large capacity (modeling the uninitialized `normalizedPath.len`
reading as garbage) the same request echoes 200 `abcde`.  The response to
this request therefore depends on an uninitialized value and is never
reliably the claimed one. -/
theorem c6_echo_broken :
    (processRequest C6Buf 42 5 fsAbsent).status = 400 ∧
      (processRequest C6Buf 42 100 fsAbsent).status = 200 ∧
      (processRequest C6Buf 42 100 fsAbsent).bodyBytes = some [97,98,99,100,101] := by
  refine ⟨by decide, by decide, by decide⟩

/-- C7 counterexample: after reading a 42-byte header block announcing
`Content-Length: 16342` (total request size exactly `MAX_REQUEST_LIMIT =
16384`), one framing iteration reallocates the buffer to
`totalRequestSize + 1 = 16385` bytes, violating the claimed bound
`capacity ≤ MAX_CAPACITY = 16384`. -/
theorem c7_capacity_exceeds_max :
    ((runDriver fsAbsent [DriverEvent.read C7Req, DriverEvent.parseIter 0]).getD
        driverInit).cap = 16385 := by
  decide



/-- The `decodeUrl` loop computes the specification decoder on the remaining
input, appended to the already-written output; the overflow guard never
fires because the output is always shorter than the consumed input. -/
theorem decodeGo_eq_spec (p : List Nat) :
    ∀ src out : List Nat, out.length + src.length ≤ p.length →
      decodeGo p src out = (decodeSpec src).map (out ++ ·) := by
  suffices H : ∀ n, ∀ src out : List Nat, src.length ≤ n →
      out.length + src.length ≤ p.length →
      decodeGo p src out = (decodeSpec src).map (out ++ ·) by
    exact fun src out h => H src.length src out le_rfl h
  intro n
  induction n with
  | zero =>
    intro src out hn _
    cases src with
    | nil => simp [decodeGo, decodeSpec]
    | cons c rest => simp at hn
  | succ n ih =>
    intro src out hn hlen
    cases src with
    | nil => simp [decodeGo, decodeSpec]
    | cons c rest =>
    simp only [List.length_cons] at hlen hn
    by_cases hc : c = 37
    · subst hc
      cases rest with
      | nil => simp [decodeGo, decodeSpec]
      | cons h rest1 =>
        cases rest1 with
        | nil => simp [decodeGo, decodeSpec]
        | cons lo rest2 =>
          simp only [List.length_cons] at hlen
          by_cases hx1 : isXDigitByte h = true
          · by_cases hx2 : isXDigitByte lo = true
            · have hguard : ¬ out.length ≥ p.length := by omega
              have ihlen :
                  (out ++ [hexVal h * 16 + hexVal lo]).length + rest2.length
                    ≤ p.length := by
                simp only [List.length_append, List.length_cons, List.length_nil]
                omega
              have hL : decodeGo p (37 :: h :: lo :: rest2) out
                  = decodeGo p rest2 (out ++ [hexVal h * 16 + hexVal lo]) := by
                simp [decodeGo, hx1, hx2, hguard]
              have hn2 : rest2.length ≤ n := by
                simp only [List.length_cons] at hn
                omega
              rw [hL, ih rest2 _ hn2 ihlen]
              have hR : decodeSpec (37 :: h :: lo :: rest2)
                  = (decodeSpec rest2).map
                      (fun t => (hexVal h * 16 + hexVal lo) :: t) := by
                simp [decodeSpec, hx1, hx2]
              rw [hR]
              cases decodeSpec rest2 with
              | none => rfl
              | some t => simp
            · simp [decodeGo, decodeSpec, hx2]
          · simp [decodeGo, decodeSpec, hx1]
    · have ihlen : (out ++ [c]).length + rest.length ≤ p.length := by
        simp only [List.length_append, List.length_cons, List.length_nil]
        omega
      have hL : decodeGo p (c :: rest) out = decodeGo p rest (out ++ [c]) := by
        cases rest with
        | nil => simp [decodeGo, hc]
        | cons d rest1 =>
          cases rest1 with
          | nil => simp [decodeGo, hc]
          | cons e rest2 => simp [decodeGo, hc]
      have hR : decodeSpec (c :: rest) = (decodeSpec rest).map (c :: ·) := by
        cases rest with
        | nil => simp [decodeSpec, hc]
        | cons d rest1 =>
          cases rest1 with
          | nil => simp [decodeSpec, hc]
          | cons e rest2 => simp [decodeSpec, hc]
      have hn1 : rest.length ≤ n := by omega
      rw [hL, ih rest _ hn1 ihlen, hR]
      cases decodeSpec rest with
      | none => rfl
      | some t => simp

/-- The specification decoder never lengthens the input. -/
theorem decodeSpec_length :
    ∀ p q : List Nat, decodeSpec p = some q → q.length ≤ p.length := by
  suffices H : ∀ n, ∀ p q : List Nat, p.length ≤ n →
      decodeSpec p = some q → q.length ≤ p.length by
    exact fun p q h => H p.length p q le_rfl h
  intro n
  induction n with
  | zero =>
    intro p q hp h
    cases p with
    | nil => simp [decodeSpec] at h; simp [← h]
    | cons c rest => simp at hp
  | succ n ih =>
    intro p q hp h
    cases p with
    | nil => simp [decodeSpec] at h; simp [← h]
    | cons c rest =>
      by_cases hc : c = 37
      · subst hc
        cases rest with
        | nil => simp [decodeSpec] at h
        | cons hd rest1 =>
          cases rest1 with
          | nil => simp [decodeSpec] at h
          | cons lo rest2 =>
            by_cases hx1 : isXDigitByte hd = true
            · by_cases hx2 : isXDigitByte lo = true
              · simp only [decodeSpec, hx1, hx2, if_pos, and_self, if_true,
                  Option.map_eq_some'] at h
                obtain ⟨t, ht, hq⟩ := h
                have hlen : rest2.length ≤ n := by
                  simp only [List.length_cons] at hp
                  omega
                have := ih rest2 t hlen ht
                simp only [← hq, List.length_cons]
                omega
              · simp [decodeSpec, hx2] at h
            · simp [decodeSpec, hx1] at h
      · have hR : decodeSpec (c :: rest) = (decodeSpec rest).map (c :: ·) := by
          cases rest with
          | nil => simp [decodeSpec, hc]
          | cons d rest1 =>
            cases rest1 with
            | nil => simp [decodeSpec, hc]
            | cons e rest2 => simp [decodeSpec, hc]
        rw [hR, Option.map_eq_some'] at h
        obtain ⟨t, ht, hq⟩ := h
        have hlen : rest.length ≤ n := by
          simp only [List.length_cons] at hp
          omega
        have := ih rest t hlen ht
        simp only [← hq, List.length_cons]
        omega

/-- The specification decoder is the identity on percent-free input. -/
theorem decodeSpec_no_pct :
    ∀ p : List Nat, (∀ b ∈ p, b ≠ 37) → decodeSpec p = some p := by
  intro p
  induction p with
  | nil => intro _; simp [decodeSpec]
  | cons c rest ih =>
    intro hnp
    have hc : c ≠ 37 := hnp c (List.mem_cons_self c rest)
    have hrest := ih (fun b hb => hnp b (List.mem_cons_of_mem c hb))
    have hR : decodeSpec (c :: rest) = (decodeSpec rest).map (c :: ·) := by
      cases rest with
      | nil => simp [decodeSpec, hc]
      | cons d rest1 =>
        cases rest1 with
        | nil => simp [decodeSpec, hc]
        | cons e rest2 => simp [decodeSpec, hc]
    rw [hR, hrest]
    rfl

-- expect cap = 16385

/-- Claim C8: `decodeUrl` maps a target to its percent-decoded form.  It
computes exactly the specification decoder (a `%` demands two ASCII hex
digits, else `BadRequestPath` = `none`; `%XY` yields `high*16 + low`; other
bytes copy through); the output is never longer than the input; and on any
path without `%` it is the identity. -/
theorem c8_decode_url_spec (p : List Nat) :
    decodeUrl p = decodeSpec p ∧
    (∀ q, decodeUrl p = some q → q.length ≤ p.length) ∧
    ((∀ b ∈ p, b ≠ 37) → decodeUrl p = some p) := by
  have heq : decodeUrl p = decodeSpec p := by
    unfold decodeUrl
    rw [decodeGo_eq_spec p p [] (by simp)]
    cases decodeSpec p with
    | none => rfl
    | some t => simp
  refine ⟨heq, ?_, ?_⟩
  · intro q h
    rw [heq] at h
    exact decodeSpec_length p q h
  · intro hnp
    rw [heq]
    exact decodeSpec_no_pct p hnp

/-- Witness for C8 at the concrete path `"/a"` and at `"/%41"`. -/
theorem c8_decode_url_spec_witness :
    decodeUrl [47, 97] = some [47, 97] ∧
      decodeUrl [47, 37, 52, 49] = decodeSpec [47, 37, 52, 49] := by
  constructor
  · exact (c8_decode_url_spec [47, 97]).2.2 (by decide)
  · exact (c8_decode_url_spec [47, 37, 52, 49]).1

/-- The header loop returns early only with `BAD_HEADER_SYNTAX` or
`INVALID_CONTENT_LENGTH`. -/
theorem parseHeadersLoop_codes (buf : List Nat) (hE : Nat) :
    ∀ fuel hS info r info',
      parseHeadersLoop buf hE fuel hS info = Sum.inl (r, info') →
        r = .BAD_HEADER_SYNTAX ∨ r = .INVALID_CONTENT_LENGTH := by
  intro fuel
  induction fuel with
  | zero =>
    intro hS info r info' h
    simp [parseHeadersLoop] at h
  | succ fuel ih =>
    intro hS info r info' h
    simp only [parseHeadersLoop] at h
    repeat' split at h
    all_goals
      first
        | decide
        | (exact ih _ _ _ _ h)
        | (cases h <;> decide)

/-- Every driver step preserves the buffer invariant. -/
theorem driverStep_inv (fs : List Nat → FileOutcome) (s s' : DriverState)
    (e : DriverEvent) (hinv : DriverInv s) (h : driverStep fs s e = some s') :
    DriverInv s' := by
  obtain ⟨hc, hpr, hrc, hlo, hhi⟩ := hinv
  cases e with
  | read chunk =>
    simp only [driverStep] at h
    split at h
    · cases h
    · rename_i hn
      injection h with h'
      subst h'
      refine ⟨?_, ?_, ?_, hlo, hhi⟩ <;>
        simp only [List.length_append, List.length_take]
      · omega
      · omega
      · have h1 : min chunk.length (s.cap - 1 - s.readOff) ≤ s.cap - 1 - s.readOff :=
          Nat.min_le_right _ _
        omega
  | parseIter normCap =>
    simp only [driverStep] at h
    split at h
    · injection h with h'
      subst h'
      exact ⟨hc, hpr, hrc, hlo, hhi⟩
    · rename_i m hfind
      split at h
      · cases h
      · split at h
        · split at h
          · cases h
          · rename_i htot h16
            split at h
            · injection h with h'
              subst h'
              refine ⟨hc, hpr, ?_, ?_, ?_⟩ <;> dsimp only <;> omega
            · split at h
              · cases h
              · rename_i r
                split at h
                · cases h
                · injection h with h'
                  subst h'
                  refine ⟨hc, ?_, ?_, ?_, ?_⟩ <;> dsimp only <;> omega
        · rename_i htot
          split at h
          · injection h with h'
            subst h'
            exact ⟨hc, hpr, hrc, hlo, hhi⟩
          · split at h
            · cases h
            · rename_i r
              split at h
              · cases h
              · injection h with h'
                subst h'
                refine ⟨hc, ?_, hrc, hlo, hhi⟩
                dsimp only
                omega
  | shift =>
    simp only [driverStep] at h
    injection h with h'
    subst h'
    refine ⟨?_, ?_, ?_, hlo, hhi⟩ <;> simp only [List.length_drop] <;> omega

/-- Claim C7 (amended): after every sequence of driver steps that keeps the
connection alive, `0 ≤ parse_offset ≤ read_offset ≤ capacity ≤
MAX_CAPACITY + 1 = 16385`.  (The original bound 16384 is violated: see the
counterexample.) -/
theorem c7_buffer_invariant (fs : List Nat → FileOutcome)
    (evs : List DriverEvent) (s : DriverState)
    (h : runDriver fs evs = some s) :
    s.parseOff ≤ s.readOff ∧ s.readOff ≤ s.cap ∧ s.cap ≤ 16385 := by
  have main : ∀ (evs : List DriverEvent) (os : Option DriverState) (s : DriverState),
      (∀ s0, os = some s0 → DriverInv s0) →
      evs.foldl (fun os e => os.bind (fun st => driverStep fs st e)) os = some s →
      DriverInv s := by
    intro evs
    induction evs with
    | nil =>
      intro os s hos h
      exact hos s h
    | cons e evs ih =>
      intro os s hos h
      simp only [List.foldl_cons] at h
      apply ih _ s _ h
      intro s1 h1
      cases os with
      | none => simp at h1
      | some s0 =>
        simp only [Option.some_bind] at h1
        exact driverStep_inv fs s0 s1 e (hos s0 rfl) h1
  have hinv := main evs (some driverInit) s
    (by intro s0 h0; injection h0 with h0; subst h0; refine ⟨rfl, ?_, ?_, ?_, ?_⟩ <;> simp [driverInit]) h
  obtain ⟨h1, h2, h3, h4, h5⟩ := hinv
  exact ⟨h2, by omega, h5⟩

/-- Witness for the amended C7 on the concrete trace that reads the
16384-byte request announcement and grows the buffer. -/
theorem c7_buffer_invariant_witness :
    (⟨C7Req, 16385, 42, 0⟩ : DriverState).parseOff ≤
        (⟨C7Req, 16385, 42, 0⟩ : DriverState).readOff ∧
      (⟨C7Req, 16385, 42, 0⟩ : DriverState).readOff ≤
        (⟨C7Req, 16385, 42, 0⟩ : DriverState).cap ∧
      (⟨C7Req, 16385, 42, 0⟩ : DriverState).cap ≤ 16385 :=
  c7_buffer_invariant fsAbsent
    [DriverEvent.read C7Req, DriverEvent.parseIter 0] _ (by decide)

/-- The threaded request-line phase returns its buffer unchanged with the
pure result. -/
theorem requestLineT_spec (buf : List Nat) :
    requestLineT buf = (requestLine buf, buf) := by
  unfold requestLineT requestLine
  cases h1 : cstrstr buf 0 [13, 10] with
  | none => simp
  | some fLE =>
    cases h2 : memchrIn buf 32 0 fLE with
    | none => simp [h2]
    | some mE =>
      cases h3 : memchrIn buf 32 (skipSpaces buf mE) (fLE - skipSpaces buf mE) with
      | none => simp [h2, h3]
      | some pE => simp [h2, h3]

/-- The threaded header loop returns its buffer unchanged with the pure
result: no iteration stores into the buffer. -/
theorem parseHeadersLoopT_spec (buf : List Nat) (hE : Nat) :
    ∀ fuel hS info,
      parseHeadersLoopT buf hE fuel hS info =
        (parseHeadersLoop buf hE fuel hS info, buf) := by
  intro fuel
  induction fuel with
  | zero => intro hS info; rfl
  | succ fuel ih =>
    intro hS info
    simp only [parseHeadersLoopT, parseHeadersLoop]
    repeat' split
    all_goals first | rfl | (apply ih)

/-- Claim C10: the parser and the body parser never write to the request
buffer: the buffer-threading translation returns the buffer it was given,
and its parse result is the one of the plain embedding; all output lands in
`httpInfo` and the header array. -/
theorem c10_parser_no_buffer_writes (buf : List Nat) (hE : Nat)
    (bodyStart : Nat) (info : HttpInfo) :
    (requestAndHeaderParserT buf hE).2 = buf ∧
    (requestAndHeaderParserT buf hE).1 = requestAndHeaderParser buf hE ∧
    (bodyParserT buf bodyStart info).2 = buf ∧
    (bodyParserT buf bodyStart info).1 = bodyParser bodyStart info := by
  have hfull : requestAndHeaderParserT buf hE = (requestAndHeaderParser buf hE, buf) := by
    unfold requestAndHeaderParserT requestAndHeaderParser
    rw [requestLineT_spec]
    cases hrl : requestLine buf with
    | none => rfl
    | some t =>
      obtain ⟨m, pv⟩ := t
      obtain ⟨p, v⟩ := pv
      simp only
      split
      · rfl
      · split
        · rfl
        · rw [parseHeadersLoopT_spec]
          cases hloop : parseHeadersLoop buf hE (hE - ((v.start + v.len) + 2))
              ((v.start + v.len) + 2) _ with
          | inl err => rfl
          | inr info2 =>
            simp only
            split <;> rfl
  refine ⟨by rw [hfull], by rw [hfull], rfl, rfl⟩

/-- Characterization of the `strncmp`-against-`"HTTP/1.1"` gate when the
compared buffer bytes are nonzero: the comparison succeeds exactly when every
compared byte equals the literal's byte (with the literal's NUL terminator
and padding read as 0). -/
theorem strncmpEq_true_iff (buf : List Nat) (i : Nat) (lit : List Nat) :
    ∀ left k, (∀ j, k ≤ j → j < k + left → byteAt buf (i + j) ≠ 0) →
      (strncmpEq buf i lit left k = true ↔
        ∀ j, k ≤ j → j < k + left → byteAt buf (i + j) = lit.getD j 0) := by
  intro left
  induction left with
  | zero =>
    intro k _
    simp only [strncmpEq, true_iff]
    intro j h1 h2
    omega
  | succ left ih =>
    intro k hnz
    have ha : byteAt buf (i + k) ≠ 0 := hnz k le_rfl (by omega)
    have hstep : strncmpEq buf i lit (left + 1) k = true ↔
        (byteAt buf (i + k) = lit.getD k 0 ∧
          strncmpEq buf i lit left (k + 1) = true) := by
      by_cases hab : byteAt buf (i + k) = lit.getD k 0
      · simp only [strncmpEq]
        rw [if_neg (by simp [hab]), if_neg ha]
        simp [hab]
      · simp only [strncmpEq]
        rw [if_pos (by simpa using hab)]
        simp only [Bool.false_eq_true, false_iff, not_and]
        intro hcontra
        exact absurd hcontra (by simpa using hab)
    rw [hstep, ih (k + 1) (fun j h1 h2 => hnz j (by omega) (by omega))]
    constructor
    · rintro ⟨h1, h2⟩ j hj1 hj2
      rcases Nat.eq_or_lt_of_le hj1 with rfl | hlt
      · exact h1
      · exact h2 j hlt (by omega)
    · intro h
      exact ⟨h k le_rfl (by omega), fun j hj1 hj2 => h j (by omega) (by omega)⟩

/-- Reading the slice of a view equals reading the buffer directly. -/
theorem byteAt_slice (buf : List Nat) (vS vLen j : Nat)
    (hb : vS + vLen ≤ buf.length) (hj : j < vLen) :
    (sliceBytes buf vS vLen).getD j 0 = byteAt buf (vS + j) := by
  unfold sliceBytes byteAt
  rw [List.getD_eq_getElem?_getD, List.getD_eq_getElem?_getD,
    List.getElem?_take, List.getElem?_drop]
  simp [hj]

/-- A view slice of the declared length exists when the view is in bounds. -/
theorem slice_length (buf : List Nat) (vS vLen : Nat) (hb : vS + vLen ≤ buf.length) :
    (sliceBytes buf vS vLen).length = vLen := by
  unfold sliceBytes
  rw [List.length_take, List.length_drop]
  omega

/-- Pointwise agreement with a padded literal is the byte-prefix test, for
lists of nonzero bytes. -/
theorem pointwise_iff_isBytePrefix :
    ∀ l lit : List Nat, (∀ b ∈ l, b ≠ 0) → (∀ b ∈ lit, b ≠ 0) →
      ((∀ j, j < l.length → l.getD j 0 = lit.getD j 0) ↔
        isBytePrefix l lit = true) := by
  intro l
  induction l with
  | nil =>
    intro lit _ _
    simp [isBytePrefix]
  | cons a l1 ih =>
    intro lit hl hlit
    cases lit with
    | nil =>
      have ha : a ≠ 0 := hl a (List.mem_cons_self a l1)
      simp only [isBytePrefix, Bool.false_eq_true, iff_false]
      intro h
      have h0 := h 0 (by simp)
      simp at h0
      exact ha h0
    | cons b lit1 =>
      have hstep : (∀ j, j < (a :: l1).length → (a :: l1).getD j 0 = (b :: lit1).getD j 0)
          ↔ (a = b ∧ ∀ j, j < l1.length → l1.getD j 0 = lit1.getD j 0) := by
        constructor
        · intro h
          refine ⟨h 0 (by simp), fun j hj => ?_⟩
          have := h (j + 1) (by simp only [List.length_cons]; omega)
          simpa using this
        · rintro ⟨h1, h2⟩ j hj
          cases j with
          | zero => simpa using h1
          | succ j =>
            simp only [List.getD_cons_succ]
            exact h2 j (by simp only [List.length_cons] at hj; omega)
      rw [hstep, ih lit1 (fun x hx => hl x (List.mem_cons_of_mem a hx))
        (fun x hx => hlit x (List.mem_cons_of_mem b hx))]
      simp [isBytePrefix]

/-- Claim C4 (amended): under the driver's guarantees that the version view
lies inside the buffer and contains no NUL byte, `requestAndHeaderParser`
returns `INVALID_VERSION` exactly when the version token is not a byte
prefix of `HTTP/1.1`.  In particular every prefix (`HTTP`, `HTTP/1.`,
the empty token) is accepted and `HTTP/1.0` is rejected. -/
theorem c4_version_prefix_iff (buf : List Nat) (hE : Nat) (m p v : BufView)
    (hline : requestLine buf = some (m, p, v))
    (hbound : v.start + v.len ≤ buf.length)
    (hnz : ∀ b ∈ sliceBytes buf v.start v.len, b ≠ 0) :
    ((requestAndHeaderParser buf hE).1 = .INVALID_VERSION ↔
      isBytePrefix (sliceBytes buf v.start v.len) HTTP11 = false) := by
  have hnzAt : ∀ j, 0 ≤ j → j < 0 + v.len → byteAt buf (v.start + j) ≠ 0 := by
    intro j _ hj
    rw [← byteAt_slice buf v.start v.len j hbound (by omega)]
    have hjlen : j < (sliceBytes buf v.start v.len).length := by
      rw [slice_length buf v.start v.len hbound]
      omega
    have hmem : (sliceBytes buf v.start v.len).getD j 0 ∈
        sliceBytes buf v.start v.len := by
      rw [List.getD_eq_getElem _ 0 hjlen]
      exact List.getElem_mem hjlen
    exact hnz _ hmem
  have hlitnz : ∀ b ∈ HTTP11, b ≠ 0 := by decide
  have hslnz : ∀ b ∈ sliceBytes buf v.start v.len, b ≠ 0 := hnz
  have hgate : strncmpEq buf v.start HTTP11 v.len 0 = true ↔
      isBytePrefix (sliceBytes buf v.start v.len) HTTP11 = true := by
    rw [strncmpEq_true_iff buf v.start HTTP11 v.len 0 hnzAt,
      ← pointwise_iff_isBytePrefix _ _ hslnz hlitnz]
    constructor
    · intro h j hj
      rw [slice_length buf v.start v.len hbound] at hj
      rw [byteAt_slice buf v.start v.len j hbound hj]
      exact h j (by omega) (by omega)
    · intro h j _ hj
      rw [← byteAt_slice buf v.start v.len j hbound (by omega)]
      exact h j (by rw [slice_length buf v.start v.len hbound]; omega)
  unfold requestAndHeaderParser
  rw [hline]
  simp only
  constructor
  · intro hres
    by_contra hpre
    have htrue : isBytePrefix (sliceBytes buf v.start v.len) HTTP11 = true := by
      cases hb : isBytePrefix (sliceBytes buf v.start v.len) HTTP11
      · exact absurd hb hpre
      · rfl
    have hg : strncmpEq buf v.start HTTP11 v.len 0 = true := hgate.mpr htrue
    rw [hg] at hres
    simp only [Bool.true_eq_false, if_false] at hres
    split at hres
    · cases hres
    · rename_i hge
      cases hloop : parseHeadersLoop buf hE (hE - ((v.start + v.len) + 2))
          ((v.start + v.len) + 2) _ with
      | inl err =>
        rw [hloop] at hres
        obtain ⟨r, info'⟩ := err
        simp only at hres
        rcases parseHeadersLoop_codes buf hE _ _ _ _ _ hloop with hr | hr <;>
          (rw [hr] at hres; cases hres)
      | inr info2 =>
        rw [hloop] at hres
        simp only at hres
        split at hres <;> cases hres
  · intro hfalse
    have hg : strncmpEq buf v.start HTTP11 v.len 0 = false := by
      cases hb : strncmpEq buf v.start HTTP11 v.len 0
      · rfl
      · rw [hgate.mp hb] at hfalse; cases hfalse
    rw [hg]
    simp

/-- Witness for the amended C4 at the concrete 1.0 request: the version
slice `HTTP/1.0` is not a prefix of `HTTP/1.1` and the parser returns
`INVALID_VERSION`. -/
theorem c4_version_prefix_iff_witness :
    (requestAndHeaderParser C4aBuf 25).1 = .INVALID_VERSION :=
  (c4_version_prefix_iff C4aBuf 25 ⟨0, 3⟩ ⟨4, 1⟩ ⟨6, 8⟩
    (by decide) (by decide) (by decide)).mpr (by decide)

/-- Claim C9 (amended): `requestAndHeaderParser` never returns
`UNSUPPORTED_TRANSFER_ENCODING`; there is no Transfer-Encoding check. -/
theorem c9_never_unsupported_te (buf : List Nat) (hE : Nat) :
    (requestAndHeaderParser buf hE).1 ≠ .UNSUPPORTED_TRANSFER_ENCODING := by
  unfold requestAndHeaderParser
  cases hrl : requestLine buf with
  | none => simp
  | some t =>
    obtain ⟨m, pv⟩ := t
    obtain ⟨p, v⟩ := pv
    simp only
    split
    · simp
    · split
      · simp
      · cases hloop : parseHeadersLoop buf hE (hE - ((v.start + v.len) + 2))
            ((v.start + v.len) + 2) _ with
        | inl err =>
          simp only [hloop]
          obtain ⟨r, info'⟩ := err
          rcases parseHeadersLoop_codes buf hE _ _ _ _ _ hloop with hr | hr <;>
            simp [hr]
        | inr info2 =>
          simp only [hloop]
          split <;> simp




/-- Unfolding equation for `splitSlash` on a cons cell. -/
theorem splitSlash_cons (c : Nat) (rest : List Nat) :
    splitSlash (c :: rest) =
      match splitSlash rest with
      | s :: ss => if c = 47 then [] :: s :: ss else (c :: s) :: ss
      | [] => [[c]] := rfl

/-- A component split never produces the empty list of components. -/
theorem splitSlash_ne_nil : ∀ l : List Nat, splitSlash l ≠ [] := by
  intro l
  cases l with
  | nil => simp [splitSlash]
  | cons c rest =>
    rw [splitSlash_cons]
    cases h : splitSlash rest with
    | nil => simp
    | cons s ss =>
      simp only
      split <;> simp

/-- Unfolding equation for `splitSlash` on a cons cell, given the split of the
tail. -/
theorem splitSlash_cons_eq (c : Nat) (rest : List Nat) (s : List Nat)
    (ss : List (List Nat)) (h : splitSlash rest = s :: ss) :
    splitSlash (c :: rest) = if c = 47 then [] :: s :: ss else (c :: s) :: ss := by
  rw [splitSlash_cons, h]

/-- Components produced by `splitSlash` contain no slash byte. -/
theorem splitSlash_no47 : ∀ l s, s ∈ splitSlash l → 47 ∉ s := by
  intro l
  induction l with
  | nil =>
    intro s hs
    simp [splitSlash] at hs
    simp [hs]
  | cons c rest ih =>
    intro s hs
    cases h : splitSlash rest with
    | nil => exact absurd h (splitSlash_ne_nil rest)
    | cons s0 ss =>
      rw [splitSlash_cons_eq c rest s0 ss h] at hs
      split at hs
      · rcases List.mem_cons.mp hs with hs1 | hs1
        · subst hs1; simp
        · exact ih s (h ▸ hs1)
      · rename_i hc
        rcases List.mem_cons.mp hs with hs1 | hs1
        · subst hs1
          intro hmem
          rcases List.mem_cons.mp hmem with h47 | h47
          · exact hc h47.symm
          · exact ih s0 (h ▸ List.mem_cons_self _ _) h47
        · exact ih s (h ▸ List.mem_cons_of_mem _ hs1)

/-- Splitting distributes over a slash byte between two halves. -/
theorem splitSlash_append47 : ∀ u v : List Nat,
    splitSlash (u ++ 47 :: v) = splitSlash u ++ splitSlash v := by
  intro u v
  induction u with
  | nil =>
    cases h : splitSlash v with
    | nil => exact absurd h (splitSlash_ne_nil v)
    | cons s ss =>
      rw [List.nil_append, splitSlash_cons_eq 47 v s ss h]
      simp [splitSlash, h]
  | cons c u ih =>
    cases h : splitSlash u with
    | nil => exact absurd h (splitSlash_ne_nil u)
    | cons s ss =>
      have h2 : splitSlash (u ++ 47 :: v) = s :: (ss ++ splitSlash v) := by
        rw [ih, h]
        rfl
      rw [List.cons_append, splitSlash_cons_eq c (u ++ 47 :: v) s (ss ++ splitSlash v) h2,
        splitSlash_cons_eq c u s ss h]
      split <;> simp

/-- A slash-free byte list is its own single component. -/
theorem splitSlash_noslash : ∀ l : List Nat, 47 ∉ l → splitSlash l = [l] := by
  intro l
  induction l with
  | nil => intro _; rfl
  | cons c rest ih =>
    intro h
    have hc : c ≠ 47 := fun hh => h (hh ▸ List.mem_cons_self _ _)
    have hr : 47 ∉ rest := fun hh => h (List.mem_cons_of_mem _ hh)
    rw [splitSlash_cons_eq c rest rest [] (ih hr)]
    simp [hc]

/-- The span taken by the segment scan is slash-free. -/
theorem segSpan_no47 : ∀ l : List Nat, 47 ∉ (segSpan l).1 := by
  intro l
  induction l with
  | nil => simp [segSpan]
  | cons c rest ih =>
    simp only [segSpan]
    split
    · simp
    · rename_i hc
      intro hmem
      rcases List.mem_cons.mp hmem with h47 | h47
      · exact hc h47.symm
      · exact ih h47

/-- The remainder of the segment scan is no longer than the input. -/
theorem segSpan_len : ∀ l : List Nat, (segSpan l).2.length ≤ l.length := by
  intro l
  induction l with
  | nil => simp [segSpan]
  | cons c rest ih =>
    simp only [segSpan]
    split
    · simp
    · simpa using Nat.le_succ_of_le ih

/-- The segment scan passes over a slash-free prefix unchanged. -/
theorem segSpan_append : ∀ s r : List Nat, 47 ∉ s →
    segSpan (s ++ r) = (s ++ (segSpan r).1, (segSpan r).2) := by
  intro s
  induction s with
  | nil => intro r _; simp
  | cons c s ih =>
    intro r h
    have hc : c ≠ 47 := fun hh => h (hh ▸ List.mem_cons_self _ _)
    have hs : 47 ∉ s := fun hh => h (List.mem_cons_of_mem _ hh)
    simp [segSpan, hc, ih r hs]

/-- The backwards pop scan keeps a nonempty list nonempty. -/
theorem popScan_ne_nil : ∀ r : List Nat, r ≠ [] → popScan r ≠ [] := by
  intro r
  induction r with
  | nil => intro h; exact absurd rfl h
  | cons a t ih =>
    intro _
    cases t with
    | nil => simp [popScan]
    | cons b t2 =>
      simp only [popScan]
      split
      · exact ih (by simp)
      · simp

/-- The backwards pop scan returns a suffix of its input. -/
theorem popScan_suffix : ∀ r : List Nat, ∃ u, r = u ++ popScan r := by
  intro r
  induction r with
  | nil => exact ⟨[], rfl⟩
  | cons a t ih =>
    cases t with
    | nil => exact ⟨[], rfl⟩
    | cons b t2 =>
      simp only [popScan]
      split
      · obtain ⟨u, hu⟩ := ih
        exact ⟨a :: u, by rw [List.cons_append, ← hu]⟩
      · exact ⟨[], rfl⟩

/-- The backwards pop scan stops at a single byte or at a slash. -/
theorem popScan_shape : ∀ r : List Nat,
    (popScan r).length ≤ 1 ∨ (popScan r).head? = some 47 := by
  intro r
  induction r with
  | nil => left; simp [popScan]
  | cons a t ih =>
    cases t with
    | nil => left; simp [popScan]
    | cons b t2 =>
      simp only [popScan]
      split
      · exact ih
      · rename_i ha
        right
        simp at ha
        simp [ha]

/-- The pop loop returns a prefix of its input. -/
theorem popLoop_prefix : ∀ l : List Nat, ∃ v, l = popLoop l ++ v := by
  intro l
  obtain ⟨u, hu⟩ := popScan_suffix l.reverse
  refine ⟨u.reverse, ?_⟩
  have := congrArg List.reverse hu
  simpa [popLoop] using this

/-- The pop loop either pops everything back to the first byte or stops just
after a slash. -/
theorem popLoop_shape : ∀ l : List Nat, l ≠ [] →
    popLoop l = l.take 1 ∨ (popLoop l).getLast? = some 47 := by
  intro l hl
  rcases popScan_shape l.reverse with hlen | hhd
  · left
    have hne : popScan l.reverse ≠ [] :=
      popScan_ne_nil l.reverse (by simpa using hl)
    obtain ⟨u, hu⟩ := popScan_suffix l.reverse
    cases hps : popScan l.reverse with
    | nil => exact absurd hps hne
    | cons x t =>
      have : t = [] := by
        have := hlen
        rw [hps] at this
        simpa using List.length_eq_zero.mp (by simpa using this)
      subst this
      rw [hps] at hu
      have hl' : l = [x] ++ u.reverse := by
        have := congrArg List.reverse hu
        simpa using this
      rw [popLoop, hps, hl']
      simp
  · right
    rw [popLoop, List.getLast?_reverse]
    exact hhd

/-- `normGo` on empty input returns the output buffer. -/
theorem normGo_nil (cap fuel : Nat) (out : List Nat) :
    normGo cap fuel [] out = some out := by
  cases fuel <;> rfl

/-- `normGo` with exhausted fuel returns the output buffer. -/
theorem normGo_zero (cap : Nat) (src out : List Nat) :
    normGo cap 0 src out = some out := by
  cases src <;> rfl

/-- Unfolding equation for one `normGo` iteration. -/
theorem normGo_succ (cap fuel : Nat) (c : Nat) (rest out : List Nat) :
    normGo cap (fuel + 1) (c :: rest) out =
      if c = 47 then normGo cap fuel rest out
      else
        if c :: (segSpan rest).1 = [46] then normGo cap fuel (segSpan rest).2 out
        else if c :: (segSpan rest).1 = [46, 46] then
          if out.length ≤ 1 then none
          else normGo cap fuel (segSpan rest).2 (popLoop out.dropLast)
        else
          match (if out.length > 1 then
                   (if out.length + 1 ≥ cap then none else some (out ++ [47]))
                 else some out) with
          | none => none
          | some out1 =>
            if out1.length + (c :: (segSpan rest).1).length ≥ cap then none
            else normGo cap fuel (segSpan rest).2 (out1 ++ (c :: (segSpan rest).1)) := rfl

/-- The pop step of `normalizePath` keeps the output rooted and free of `.`
and `..` components. -/
theorem goodOut_pop (out : List Nat) (h1 : out.head? = some 47) (h2 : 2 ≤ out.length)
    (hs : ∀ s ∈ splitSlash out, s ≠ [46] ∧ s ≠ [46, 46]) :
    (popLoop out.dropLast).head? = some 47 ∧
      ∀ s ∈ splitSlash (popLoop out.dropLast), s ≠ [46] ∧ s ≠ [46, 46] := by
  obtain ⟨b, t, rfl⟩ : ∃ b t, out = 47 :: b :: t := by
    cases out with
    | nil => cases h1
    | cons a t0 =>
      cases t0 with
      | nil => simp at h2
      | cons b t =>
        have ha : a = 47 := by simpa using h1
        exact ⟨b, t, by rw [ha]⟩
  have hd2 : (47 :: b :: t).dropLast = 47 :: (b :: t).dropLast := rfl
  have hdne : (47 :: b :: t).dropLast ≠ [] := by rw [hd2]; simp
  rcases popLoop_shape _ hdne with hshape | hshape
  · have hpl : popLoop ((47 :: b :: t).dropLast) = [47] := by
      rw [hshape, hd2]
      rfl
    rw [hpl]
    exact ⟨rfl, by decide⟩
  · have hqne : popLoop ((47 :: b :: t).dropLast) ≠ [] := by
      intro hq
      rw [hq] at hshape
      cases hshape
    obtain ⟨v, hv⟩ := popLoop_prefix ((47 :: b :: t).dropLast)
    have hlastne : (47 :: b :: t) ≠ [] := by simp
    have hout : 47 :: b :: t =
        (47 :: b :: t).dropLast ++ [(47 :: b :: t).getLast hlastne] :=
      (List.dropLast_append_getLast hlastne).symm
    have hq47 : popLoop ((47 :: b :: t).dropLast) =
        (popLoop ((47 :: b :: t).dropLast)).dropLast ++ [47] := by
      have hg := List.dropLast_append_getLast hqne
      rw [List.getLast?_eq_getLast _ hqne] at hshape
      have : (popLoop ((47 :: b :: t).dropLast)).getLast hqne = 47 := by
        injection hshape
      rw [this] at hg
      exact hg.symm
    have houtu : 47 :: b :: t =
        (popLoop ((47 :: b :: t).dropLast)).dropLast ++
          47 :: (v ++ [(47 :: b :: t).getLast hlastne]) := by
      conv_lhs => rw [hout, hv]
      conv_lhs => rw [hq47]
      simp
    constructor
    · rw [hq47]
      cases hu : (popLoop ((47 :: b :: t).dropLast)).dropLast with
      | nil => rfl
      | cons x u' =>
        have : x = 47 := by
          rw [hu] at houtu
        -- houtu : 47 :: b :: t = x :: (u' ++ 47 :: _)
          have := congrArg List.head? houtu
          simpa using this.symm
        rw [this]
        rfl
    · intro s hmem
      rw [hq47] at hmem
      have hsp : splitSlash ((popLoop ((47 :: b :: t).dropLast)).dropLast ++ [47]) =
          splitSlash ((popLoop ((47 :: b :: t).dropLast)).dropLast) ++ [[]] := by
        have h47 := splitSlash_append47 ((popLoop ((47 :: b :: t).dropLast)).dropLast) []
        simpa [splitSlash] using h47
      rw [hsp] at hmem
      rcases List.mem_append.mp hmem with hm | hm
      · apply hs
        rw [houtu, splitSlash_append47]
        exact List.mem_append_left _ hm
      · have : s = [] := by simpa using hm
        subst this
        exact ⟨by simp, by simp⟩

/-- The `normalizePath` loop keeps the output rooted and free of `.` and `..`
components. -/
theorem normGo_goodOut : ∀ (fuel : Nat) (src out q : List Nat) (cap : Nat),
    out.head? = some 47 →
    (∀ s ∈ splitSlash out, s ≠ [46] ∧ s ≠ [46, 46]) →
    normGo cap fuel src out = some q →
    q.head? = some 47 ∧ ∀ s ∈ splitSlash q, s ≠ [46] ∧ s ≠ [46, 46] := by
  intro fuel
  induction fuel with
  | zero =>
    intro src out q cap h1 h2 h
    rw [normGo_zero] at h
    injection h with h
    subst h
    exact ⟨h1, h2⟩
  | succ fuel ih =>
    intro src out q cap h1 h2 h
    cases src with
    | nil =>
      rw [normGo_nil] at h
      injection h with h
      subst h
      exact ⟨h1, h2⟩
    | cons c rest =>
      rw [normGo_succ] at h
      by_cases hc : c = 47
      · rw [if_pos hc] at h
        exact ih rest out q cap h1 h2 h
      · rw [if_neg hc] at h
        by_cases hdot : c :: (segSpan rest).1 = [46]
        · rw [if_pos hdot] at h
          exact ih _ out q cap h1 h2 h
        · rw [if_neg hdot] at h
          by_cases hdd : c :: (segSpan rest).1 = [46, 46]
          · rw [if_pos hdd] at h
            by_cases hlen : out.length ≤ 1
            · rw [if_pos hlen] at h
              cases h
            · rw [if_neg hlen] at h
              obtain ⟨g1, g2⟩ := goodOut_pop out h1 (by omega) h2
              exact ih _ _ q cap g1 g2 h
          · rw [if_neg hdd] at h
            have hseg47 : 47 ∉ c :: (segSpan rest).1 := by
              intro hmem
              rcases List.mem_cons.mp hmem with hm | hm
              · exact hc hm.symm
              · exact segSpan_no47 rest hm
            have hsingle : splitSlash (c :: (segSpan rest).1) = [c :: (segSpan rest).1] :=
              splitSlash_noslash _ hseg47
            split at h
            · cases h
            · rename_i out1 heq
              by_cases hcap2 : out1.length + (c :: (segSpan rest).1).length ≥ cap
              · rw [if_pos hcap2] at h
                cases h
              · rw [if_neg hcap2] at h
                by_cases hgt : out.length > 1
                · rw [if_pos hgt] at heq
                  by_cases hcap1 : out.length + 1 ≥ cap
                  · rw [if_pos hcap1] at heq
                    cases heq
                  · rw [if_neg hcap1] at heq
                    injection heq with heq
                    subst heq
                    apply ih _ _ q cap _ _ h
                    · cases out with
                      | nil => cases h1
                      | cons a t =>
                        have ha : a = 47 := by simpa using h1
                        subst ha
                        rfl
                    · intro s hmem
                      rw [show (out ++ [47]) ++ c :: (segSpan rest).1 =
                          out ++ 47 :: (c :: (segSpan rest).1) by simp] at hmem
                      rw [splitSlash_append47, hsingle] at hmem
                      rcases List.mem_append.mp hmem with hm | hm
                      · exact h2 s hm
                      · have : s = c :: (segSpan rest).1 := by simpa using hm
                        subst this
                        exact ⟨hdot, hdd⟩
                · rw [if_neg hgt] at heq
                  injection heq with heq
                  subst heq
                  have hout : out = [47] := by
                    cases out with
                    | nil => cases h1
                    | cons a t =>
                      have ha : a = 47 := by simpa using h1
                      subst ha
                      cases t with
                      | nil => rfl
                      | cons b t2 => simp at hgt
                  subst hout
                  refine ih _ _ q cap ?_ ?_ h
                  · rfl
                  intro s hmem
                  rw [show [47] ++ c :: (segSpan rest).1 =
                      47 :: (c :: (segSpan rest).1) by simp] at hmem
                  rw [splitSlash_cons_eq 47 _ _ [] hsingle] at hmem
                  rw [if_pos rfl] at hmem
                  rcases List.mem_cons.mp hmem with hm | hm
                  · subst hm
                    exact ⟨by simp, by simp⟩
                  · have : s = c :: (segSpan rest).1 := by simpa using hm
                    subst this
                    exact ⟨hdot, hdd⟩

/-- Unfolding equation for one `leadingDotDotF` iteration. -/
theorem leadDD_succ (fuel c : Nat) (rest : List Nat) :
    leadingDotDotF (fuel + 1) (c :: rest) =
      if c = 47 then leadingDotDotF fuel rest
      else if c :: (segSpan rest).1 = [46] then leadingDotDotF fuel (segSpan rest).2
      else decide (c :: (segSpan rest).1 = [46, 46]) := rfl

/-- A path whose first real segment is `..` makes `normalizePath` fail from
the root output. -/
theorem normGo_leadDD : ∀ (fuel : Nat) (src : List Nat) (cap : Nat),
    leadingDotDotF fuel src = true → normGo cap fuel src [47] = none := by
  intro fuel
  induction fuel with
  | zero =>
    intro src cap h
    cases src with
    | nil => simp [leadingDotDotF] at h
    | cons c rest => simp [leadingDotDotF] at h
  | succ fuel ih =>
    intro src cap h
    cases src with
    | nil => simp [leadingDotDotF] at h
    | cons c rest =>
      rw [normGo_succ]
      rw [leadDD_succ] at h
      by_cases hc : c = 47
      · rw [if_pos hc] at h ⊢
        exact ih rest cap h
      · rw [if_neg hc] at h ⊢
        by_cases hdot : c :: (segSpan rest).1 = [46]
        · rw [if_pos hdot] at h ⊢
          exact ih _ cap h
        · rw [if_neg hdot] at h ⊢
          have hdd : c :: (segSpan rest).1 = [46, 46] := by simpa using h
          rw [if_pos hdd]
          simp

/-- Claim C1 (amended): every path accepted by `normalizePath` starts at the
root and contains no `.` or `..` component, and a path whose first real
segment is `..` is rejected with `BAD_REQUEST_PATH`.  (Escapes that occur
only after a pop-then-push are not all rejected: see the counterexample.) -/
theorem c1_root_safety (p : List Nat) (cap : Nat) :
    (∀ q, normalizePath p cap = some q →
        q.head? = some 47 ∧ ∀ s ∈ splitSlash q, s ≠ [46] ∧ s ≠ [46, 46]) ∧
    (leadingDotDot p = true → normalizePath p cap = none) := by
  constructor
  · intro q hq
    exact normGo_goodOut p.length p [47] q cap rfl (by decide) hq
  · intro h
    exact normGo_leadDD p.length p cap h

/-- Witness for the amended C1: the request path `/a/b` normalizes to a rooted
output without dot components, and `/..` is rejected. -/
theorem c1_root_safety_witness :
    ([47, 97, 47, 98].head? = some 47 ∧
        ∀ s ∈ splitSlash [47, 97, 47, 98], s ≠ [46] ∧ s ≠ [46, 46]) ∧
      normalizePath [47, 46, 46] 8 = none :=
  ⟨(c1_root_safety [47, 97, 47, 98] 8).1 [47, 97, 47, 98] (by decide),
    (c1_root_safety [47, 46, 46] 8).2 (by decide)⟩

/-- Rendering a two-or-more segment list. -/
theorem interSlash_cons2 (s t : List Nat) (ss : List (List Nat)) :
    interSlash (s :: t :: ss) = s ++ 47 :: interSlash (t :: ss) := rfl

/-- Rendering distributes over appending nonempty segment lists. -/
theorem interSlash_append : ∀ a b : List (List Nat), a ≠ [] → b ≠ [] →
    interSlash (a ++ b) = interSlash a ++ 47 :: interSlash b := by
  intro a
  induction a with
  | nil => intro b h _; exact absurd rfl h
  | cons s a2 ih =>
    intro b _ hb
    cases a2 with
    | nil =>
      cases b with
      | nil => exact absurd rfl hb
      | cons t bs => rfl
    | cons s2 a3 =>
      rw [List.cons_append, List.cons_append, interSlash_cons2,
        interSlash_cons2, ← List.cons_append]
      rw [ih b (by simp) hb]
      simp

/-- A rendered nonempty segment list of nonempty segments is nonempty. -/
theorem interSlash_pos : ∀ a : List (List Nat), a ≠ [] → (∀ s ∈ a, s ≠ []) →
    0 < (interSlash a).length := by
  intro a
  cases a with
  | nil => intro h _; exact absurd rfl h
  | cons s a2 =>
    intro _ hne
    have hs : s ≠ [] := hne s (List.mem_cons_self _ _)
    cases a2 with
    | nil =>
      cases s with
      | nil => exact absurd rfl hs
      | cons c t => simp [interSlash]
    | cons s2 a3 =>
      rw [interSlash_cons2]
      cases s with
      | nil => exact absurd rfl hs
      | cons c t => simp

/-- The first segment is no longer than the whole rendering. -/
theorem interSlash_head_le (s : List Nat) (rest : List (List Nat)) :
    s.length ≤ (interSlash (s :: rest)).length := by
  cases rest with
  | nil => exact Nat.le_refl _
  | cons t ss =>
    rw [interSlash_cons2]
    simp

/-- A slash-free byte list has no adjacent slashes. -/
theorem noAdjSlash_no47 : ∀ l : List Nat, 47 ∉ l → noAdjSlash l = true := by
  intro l
  induction l with
  | nil => intro _; rfl
  | cons x t ih =>
    intro h
    cases t with
    | nil => rfl
    | cons y t2 =>
      have hx : x ≠ 47 := fun hh => h (hh ▸ List.mem_cons_self _ _)
      have ht : 47 ∉ y :: t2 := fun hh => h (List.mem_cons_of_mem _ hh)
      simp only [noAdjSlash, ih ht, Bool.and_true, Bool.not_eq_eq_eq_not, Bool.not_false]
      simp [hx]

/-- Gluing two slash-separated strings without creating adjacent slashes. -/
theorem noAdjSlash_append : ∀ a b : List Nat, noAdjSlash a = true → noAdjSlash b = true →
    (∀ x y, a.getLast? = some x → b.head? = some y → ¬(x = 47 ∧ y = 47)) →
    noAdjSlash (a ++ b) = true := by
  intro a
  induction a with
  | nil => intro b _ hb _; exact hb
  | cons x t ih =>
    intro b ha hb hj
    cases t with
    | nil =>
      cases b with
      | nil => rfl
      | cons y t2 =>
        simp only [List.singleton_append, noAdjSlash, hb, Bool.and_true]
        have := hj x y rfl rfl
        simp only [Bool.not_eq_eq_eq_not, Bool.not_false]
        by_cases hx : x = 47
        · by_cases hy : y = 47
          · exact absurd ⟨hx, hy⟩ this
          · simp [hy]
        · simp [hx]
    | cons y t2 =>
      simp only [noAdjSlash] at ha
      have hsplit := Bool.and_eq_true_iff.mp ha
      simp only [List.cons_append] at ih ⊢
      simp only [noAdjSlash]
      apply Bool.and_eq_true_iff.mpr
      refine ⟨hsplit.1, ?_⟩
      apply ih b hsplit.2 hb
      intro p r hp hr
      apply hj p r ?_ hr
      rw [List.getLast?_cons_cons]
      exact hp

/-- A rendered path of nonempty slash-free segments has no adjacent slashes. -/
theorem noAdjSlash_render : ∀ segs : List (List Nat),
    (∀ s ∈ segs, s ≠ [] ∧ 47 ∉ s) → noAdjSlash (47 :: interSlash segs) = true := by
  intro segs
  induction segs with
  | nil => intro _; rfl
  | cons s rest ih =>
    intro hok
    have hs := hok s (List.mem_cons_self _ _)
    cases rest with
    | nil =>
      show noAdjSlash ([47] ++ s) = true
      apply noAdjSlash_append [47] s rfl (noAdjSlash_no47 s hs.2)
      intro x y hx hy hxy
      have : y ∈ s := List.mem_of_mem_head? hy
      exact hs.2 (hxy.2 ▸ this)
    | cons t ss =>
      rw [show 47 :: interSlash (s :: t :: ss) =
          (47 :: s) ++ (47 :: interSlash (t :: ss)) by
        rw [interSlash_cons2]; simp]
      apply noAdjSlash_append (47 :: s) (47 :: interSlash (t :: ss)) ?_
          (ih (fun u hu => hok u (List.mem_cons_of_mem _ hu)))
      · intro x y hx hy hxy
        cases hss : s with
        | nil => exact hs.1 hss
        | cons c cs =>
          rw [hss] at hx
          rw [List.getLast?_cons_cons] at hx
          have : x ∈ c :: cs := by
            have hne : (c :: cs : List Nat) ≠ [] := by simp
            rw [List.getLast?_eq_getLast _ hne] at hx
            injection hx with hx
            exact hx ▸ List.getLast_mem hne
          exact hs.2 (hxy.1 ▸ (hss ▸ this))
      · show noAdjSlash ([47] ++ s) = true
        apply noAdjSlash_append [47] s rfl (noAdjSlash_no47 s hs.2)
        intro x y hx hy hxy
        have : y ∈ s := List.mem_of_mem_head? hy
        exact hs.2 (hxy.2 ▸ this)

/-- The last byte of a rendered nonempty path is not a slash. -/
theorem lastByte_render : ∀ segs : List (List Nat), segs ≠ [] →
    (∀ s ∈ segs, s ≠ [] ∧ 47 ∉ s) →
    ∀ x, (47 :: interSlash segs).getLast? = some x → x ≠ 47 := by
  intro segs
  induction segs with
  | nil => intro h; exact absurd rfl h
  | cons s rest ih =>
    intro _ hok x hx
    have hs := hok s (List.mem_cons_self _ _)
    cases rest with
    | nil =>
      have hne : s ≠ [] := hs.1
      rw [show (47 :: interSlash [s]) = [47] ++ s from rfl,
        List.getLast?_append_of_ne_nil _ hne] at hx
      rw [List.getLast?_eq_getLast _ hne] at hx
      injection hx with hx
      intro hc
      exact hs.2 (hc ▸ hx ▸ List.getLast_mem hne)
    | cons t ss =>
      apply ih (by simp) (fun u hu => hok u (List.mem_cons_of_mem _ hu)) x
      rw [show (47 :: interSlash (s :: t :: ss)) =
          (47 :: s) ++ (47 :: interSlash (t :: ss)) by
        rw [interSlash_cons2]; simp] at hx
      rw [List.getLast?_append_of_ne_nil _ (by simp)] at hx
      exact hx

/-- Unfolding equation for one `hasDotDotSegF` iteration. -/
theorem hasDD_succ (fuel c : Nat) (rest : List Nat) :
    hasDotDotSegF (fuel + 1) (c :: rest) =
      if c = 47 then hasDotDotSegF fuel rest
      else (decide (c :: (segSpan rest).1 = [46, 46]) ||
        hasDotDotSegF fuel (segSpan rest).2) := rfl

/-- On a `..`-free input with enough fuel, the `normalizePath` loop only
pushes: starting from a rendered segment list it ends in a rendered segment
list whose length stayed under the capacity whenever a push occurred. -/
theorem normGo_run1 : ∀ (fuel : Nat) (src : List Nat) (done : List (List Nat))
    (q : List Nat) (cap : Nat),
    src.length ≤ fuel →
    hasDotDotSegF fuel src = false →
    (∀ s ∈ done, SegOk s) →
    (done = [] ∨ (47 :: interSlash done).length < cap) →
    normGo cap fuel src (47 :: interSlash done) = some q →
    ∃ done2, (∀ s ∈ done2, SegOk s) ∧
      (done2 = [] ∨ (47 :: interSlash done2).length < cap) ∧
      q = 47 :: interSlash done2 := by
  intro fuel
  induction fuel with
  | zero =>
    intro src done q cap hfl hdd hok hcap h
    have hsrc : src = [] := List.length_eq_zero.mp (Nat.le_zero.mp hfl)
    subst hsrc
    rw [normGo_nil] at h
    injection h with h
    exact ⟨done, hok, hcap, h.symm⟩
  | succ fuel ih =>
    intro src done q cap hfl hdd hok hcap h
    cases src with
    | nil =>
      rw [normGo_nil] at h
      injection h with h
      exact ⟨done, hok, hcap, h.symm⟩
    | cons c rest =>
      rw [normGo_succ] at h
      rw [hasDD_succ] at hdd
      have hrl : rest.length ≤ fuel := by
        simp at hfl
        omega
      have hrl2 : (segSpan rest).2.length ≤ fuel :=
        Nat.le_trans (segSpan_len rest) hrl
      by_cases hc : c = 47
      · rw [if_pos hc] at h hdd
        exact ih rest done q cap hrl hdd hok hcap h
      · rw [if_neg hc] at h hdd
        rw [Bool.or_eq_false_iff] at hdd
        have hdd1 : c :: (segSpan rest).1 ≠ [46, 46] := by
          have := hdd.1
          simpa using this
        have hdd2 := hdd.2
        by_cases hdot : c :: (segSpan rest).1 = [46]
        · rw [if_pos hdot] at h
          exact ih _ done q cap hrl2 hdd2 hok hcap h
        · rw [if_neg hdot] at h
          rw [if_neg hdd1] at h
          have hseg47 : 47 ∉ c :: (segSpan rest).1 := by
            intro hmem
            rcases List.mem_cons.mp hmem with hm | hm
            · exact hc hm.symm
            · exact segSpan_no47 rest hm
          have hsegok : SegOk (c :: (segSpan rest).1) :=
            ⟨by simp, hseg47, hdot, hdd1⟩
          split at h
          · cases h
          · rename_i out1 heq
            by_cases hcap2 : out1.length + (c :: (segSpan rest).1).length ≥ cap
            · rw [if_pos hcap2] at h
              cases h
            · rw [if_neg hcap2] at h
              by_cases hgt : (47 :: interSlash done).length > 1
              · rw [if_pos hgt] at heq
                by_cases hcap1 : (47 :: interSlash done).length + 1 ≥ cap
                · rw [if_pos hcap1] at heq
                  cases heq
                · rw [if_neg hcap1] at heq
                  injection heq with heq
                  subst heq
                  have hdone_ne : done ≠ [] := by
                    intro hd
                    subst hd
                    simp [interSlash] at hgt
                  have hrender : (47 :: interSlash done ++ [47]) ++
                      c :: (segSpan rest).1 =
                      47 :: interSlash (done ++ [c :: (segSpan rest).1]) := by
                    rw [interSlash_append done [c :: (segSpan rest).1] hdone_ne
                      (by simp)]
                    simp [interSlash]
                  rw [hrender] at h
                  apply ih _ (done ++ [c :: (segSpan rest).1]) q cap hrl2 hdd2 ?_ ?_ h
                  · intro s hmem
                    rcases List.mem_append.mp hmem with hm | hm
                    · exact hok s hm
                    · have : s = c :: (segSpan rest).1 := by simpa using hm
                      subst this
                      exact hsegok
                  · right
                    rw [← hrender]
                    have hi : (c :: (segSpan rest).1).length =
                        (segSpan rest).1.length + 1 := by simp
                    have hg : (47 :: interSlash done).length =
                        (interSlash done).length + 1 := by simp
                    simp only [List.length_append, List.length_cons] at hcap2 ⊢
                    omega
              · rw [if_neg hgt] at heq
                injection heq with heq
                subst heq
                have hnil : interSlash done = [] := by
                  apply List.length_eq_zero.mp
                  have hlen := Nat.not_lt.mp hgt
                  simp only [List.length_cons] at hlen
                  omega
                have hrender : (47 :: interSlash done) ++ c :: (segSpan rest).1 =
                    47 :: interSlash [c :: (segSpan rest).1] := by
                  rw [hnil]
                  rfl
                rw [hrender] at h
                apply ih _ [c :: (segSpan rest).1] q cap hrl2 hdd2 ?_ ?_ h
                · intro s hmem
                  have : s = c :: (segSpan rest).1 := by simpa using hmem
                  subst this
                  exact hsegok
                · right
                  rw [← hrender]
                  rw [hnil] at hcap2 ⊢
                  simp only [List.length_append, List.length_cons,
                    List.length_nil] at hcap2 ⊢
                  omega

/-- A push step of `normalizePath` from an output of at most one byte. -/
theorem normGo_push_small (cap fuel : Nat) (c : Nat) (rest out : List Nat)
    (hc : c ≠ 47) (hdot : c :: (segSpan rest).1 ≠ [46])
    (hdd : c :: (segSpan rest).1 ≠ [46, 46]) (hsmall : ¬(out.length > 1))
    (hcap : ¬(out.length + (c :: (segSpan rest).1).length ≥ cap)) :
    normGo cap (fuel + 1) (c :: rest) out =
      normGo cap fuel (segSpan rest).2 (out ++ c :: (segSpan rest).1) := by
  rw [normGo_succ, if_neg hc, if_neg hdot, if_neg hdd, if_neg hsmall]
  exact if_neg hcap

/-- A push step of `normalizePath` that first writes a separator. -/
theorem normGo_push_sep (cap fuel : Nat) (c : Nat) (rest out : List Nat)
    (hc : c ≠ 47) (hdot : c :: (segSpan rest).1 ≠ [46])
    (hdd : c :: (segSpan rest).1 ≠ [46, 46]) (hbig : out.length > 1)
    (hcap1 : ¬(out.length + 1 ≥ cap))
    (hcap2 : ¬((out ++ [47]).length + (c :: (segSpan rest).1).length ≥ cap)) :
    normGo cap (fuel + 1) (c :: rest) out =
      normGo cap fuel (segSpan rest).2 ((out ++ [47]) ++ c :: (segSpan rest).1) := by
  rw [normGo_succ, if_neg hc, if_neg hdot, if_neg hdd, if_pos hbig, if_neg hcap1]
  exact if_neg hcap2

/-- Re-running the `normalizePath` loop over an already-rendered segment list
reproduces it verbatim, provided its length stayed under the capacity. -/
theorem normGo_render : ∀ (segs done : List (List Nat)) (cap fuel : Nat),
    (interSlash segs).length ≤ fuel →
    (∀ s ∈ segs, SegOk s) →
    (∀ s ∈ done, s ≠ [] ∧ 47 ∉ s) →
    (segs ≠ [] → (47 :: interSlash (done ++ segs)).length < cap) →
    normGo cap fuel (interSlash segs) (47 :: interSlash done) =
      some (47 :: interSlash (done ++ segs)) := by
  intro segs
  induction segs with
  | nil =>
    intro done cap fuel _ _ _ _
    rw [show interSlash ([] : List (List Nat)) = [] from rfl, normGo_nil,
      List.append_nil]
  | cons s rest ih =>
    intro done cap fuel hfl hsegs hdone hcap
    obtain ⟨hs_ne, hs_47, hs_dot, hs_dd⟩ := hsegs s (List.mem_cons_self _ _)
    obtain ⟨c, s2, rfl⟩ : ∃ c s2, s = c :: s2 := by
      cases s with
      | nil => exact absurd rfl hs_ne
      | cons c s2 => exact ⟨c, s2, rfl⟩
    have hc : c ≠ 47 := fun h => hs_47 (h ▸ List.mem_cons_self _ _)
    have hs2 : 47 ∉ s2 := fun h => hs_47 (List.mem_cons_of_mem _ h)
    have hcapc := hcap (by simp)
    cases rest with
    | nil =>
      cases fuel with
      | zero =>
        exfalso
        rw [show interSlash [c :: s2] = c :: s2 from rfl] at hfl
        simp at hfl
      | succ f1 =>
        rw [show interSlash [c :: s2] = c :: s2 from rfl]
        have hspan : segSpan s2 = (s2, []) := by
          have h0 := segSpan_append s2 [] hs2
          rw [show segSpan ([] : List Nat) = ([], []) from rfl] at h0
          simpa using h0
        have h1 : (segSpan s2).1 = s2 := by rw [hspan]
        have h2 : (segSpan s2).2 = [] := by rw [hspan]
        by_cases hbig : (47 :: interSlash done).length > 1
        · have hdone_ne : done ≠ [] := by
            intro hd
            subst hd
            simp [interSlash] at hbig
          have hISapp : interSlash (done ++ [c :: s2]) =
              interSlash done ++ 47 :: (c :: s2) :=
            interSlash_append done [c :: s2] hdone_ne (by simp)
          have hlen_app : (interSlash (done ++ [c :: s2])).length =
              (interSlash done).length + s2.length + 2 := by
            rw [hISapp]
            simp only [List.length_append, List.length_cons]
            omega
          have hcapL : (interSlash (done ++ [c :: s2])).length + 1 < cap := by
            have e3 : (47 :: interSlash (done ++ [c :: s2])).length =
                (interSlash (done ++ [c :: s2])).length + 1 := by simp
            rw [e3] at hcapc
            exact hcapc
          rw [normGo_push_sep cap f1 c s2 _ hc (by rw [h1]; exact hs_dot)
            (by rw [h1]; exact hs_dd) hbig
            (by
              have e1 : (47 :: interSlash done).length =
                  (interSlash done).length + 1 := by simp
              rw [e1]
              omega)
            (by
              rw [h1]
              have e1 : ((47 :: interSlash done) ++ [47]).length =
                  (interSlash done).length + 2 := by simp
              have e2 : (c :: s2).length = s2.length + 1 := by simp
              rw [e1, e2]
              omega)]
          rw [h1, h2, normGo_nil]
          rw [show ((47 :: interSlash done) ++ [47]) ++ c :: s2 =
              47 :: (interSlash done ++ 47 :: (c :: s2)) by simp]
          rw [← hISapp]
        · have hnil : interSlash done = [] := by
            apply List.length_eq_zero.mp
            have hlen := Nat.not_lt.mp hbig
            simp only [List.length_cons] at hlen
            omega
          have hdone_nil : done = [] := by
            cases done with
            | nil => rfl
            | cons d ds =>
              exfalso
              have hp := interSlash_pos (d :: ds) (by simp)
                (fun u hu => (hdone u hu).1)
              rw [hnil] at hp
              simp at hp
          subst hdone_nil
          have hcapL : s2.length + 2 < cap := by
            have e3 : (47 :: interSlash ([] ++ [c :: s2])).length =
                s2.length + 2 := by
              simp [interSlash]
            rw [e3] at hcapc
            exact hcapc
          rw [normGo_push_small cap f1 c s2 _ hc (by rw [h1]; exact hs_dot)
            (by rw [h1]; exact hs_dd) hbig
            (by
              rw [h1]
              have e1 : (47 :: interSlash ([] : List (List Nat))).length = 1 := by
                simp [interSlash]
              have e2 : (c :: s2).length = s2.length + 1 := by simp
              rw [e1, e2]
              omega)]
          rw [h1, h2, normGo_nil]
          rfl
    | cons t ss =>
      have hsrc : interSlash ((c :: s2) :: t :: ss) =
          c :: (s2 ++ 47 :: interSlash (t :: ss)) := by
        rw [interSlash_cons2]
        rfl
      have hLpos : 0 < (interSlash (t :: ss)).length :=
        interSlash_pos (t :: ss) (by simp)
          (fun u hu => (hsegs u (List.mem_cons_of_mem _ hu)).1)
      have hfl2 : s2.length + 2 + (interSlash (t :: ss)).length ≤ fuel := by
        rw [hsrc] at hfl
        simp only [List.length_cons, List.length_append] at hfl
        omega
      cases fuel with
      | zero => omega
      | succ f1 =>
        cases f1 with
        | zero => omega
        | succ f2 =>
          rw [hsrc]
          have hspan0 : segSpan (47 :: interSlash (t :: ss)) =
              ([], 47 :: interSlash (t :: ss)) := by
            simp [segSpan]
          have hspan : segSpan (s2 ++ 47 :: interSlash (t :: ss)) =
              (s2, 47 :: interSlash (t :: ss)) := by
            rw [segSpan_append s2 _ hs2, hspan0]
            simp
          have h1 : (segSpan (s2 ++ 47 :: interSlash (t :: ss))).1 = s2 := by
            rw [hspan]
          have h2 : (segSpan (s2 ++ 47 :: interSlash (t :: ss))).2 =
              47 :: interSlash (t :: ss) := by
            rw [hspan]
          have hassoc : (done ++ [c :: s2]) ++ t :: ss =
              done ++ (c :: s2) :: t :: ss := by
            simp
          have hcap_next : t :: ss ≠ [] →
              (47 :: interSlash ((done ++ [c :: s2]) ++ t :: ss)).length < cap := by
            intro _
            rw [hassoc]
            exact hcapc
          have hIS_next : interSlash ((done ++ [c :: s2]) ++ t :: ss) =
              interSlash (done ++ [c :: s2]) ++ 47 :: interSlash (t :: ss) :=
            interSlash_append _ _ (by simp) (by simp)
          by_cases hbig : (47 :: interSlash done).length > 1
          · have hdone_ne : done ≠ [] := by
              intro hd
              subst hd
              simp [interSlash] at hbig
            have hISapp : interSlash (done ++ [c :: s2]) =
                interSlash done ++ 47 :: (c :: s2) :=
              interSlash_append done [c :: s2] hdone_ne (by simp)
            have hlen_full : (interSlash (done ++ (c :: s2) :: t :: ss)).length =
                (interSlash done).length + 1 +
                  (s2.length + 2 + (interSlash (t :: ss)).length) := by
              rw [← hassoc, hIS_next, hISapp]
              simp only [List.length_append, List.length_cons]
              omega
            have hcapL : (interSlash (done ++ (c :: s2) :: t :: ss)).length + 1 < cap := by
              have e3 : (47 :: interSlash (done ++ (c :: s2) :: t :: ss)).length =
                  (interSlash (done ++ (c :: s2) :: t :: ss)).length + 1 := by simp
              rw [e3] at hcapc
              exact hcapc
            rw [normGo_push_sep cap (f2 + 1) c _ _ hc (by rw [h1]; exact hs_dot)
              (by rw [h1]; exact hs_dd) hbig
              (by
                have e1 : (47 :: interSlash done).length =
                    (interSlash done).length + 1 := by simp
                rw [e1]
                omega)
              (by
                rw [h1]
                have e1 : ((47 :: interSlash done) ++ [47]).length =
                    (interSlash done).length + 2 := by simp
                have e2 : (c :: s2).length = s2.length + 1 := by simp
                rw [e1, e2]
                omega)]
            rw [h1, h2]
            rw [normGo_succ, if_pos rfl]
            have hout : ((47 :: interSlash done) ++ [47]) ++ c :: s2 =
                47 :: interSlash (done ++ [c :: s2]) := by
              rw [hISapp]
              simp
            rw [hout]
            rw [ih (done ++ [c :: s2]) cap f2
              (by omega)
              (fun u hu => hsegs u (List.mem_cons_of_mem _ hu))
              (by
                intro u hu
                rcases List.mem_append.mp hu with hm | hm
                · exact hdone u hm
                · have : u = c :: s2 := by simpa using hm
                  subst this
                  exact ⟨by simp, hs_47⟩)
              hcap_next]
            rw [hassoc]
          · have hnil : interSlash done = [] := by
              apply List.length_eq_zero.mp
              have hlen := Nat.not_lt.mp hbig
              simp only [List.length_cons] at hlen
              omega
            have hdone_nil : done = [] := by
              cases done with
              | nil => rfl
              | cons d ds =>
                exfalso
                have hp := interSlash_pos (d :: ds) (by simp)
                  (fun u hu => (hdone u hu).1)
                rw [hnil] at hp
                simp at hp
            subst hdone_nil
            have hcapL : s2.length + 2 + (1 + (interSlash (t :: ss)).length) < cap := by
              have e3 : (47 :: interSlash ([] ++ (c :: s2) :: t :: ss)).length =
                  s2.length + 2 + (1 + (interSlash (t :: ss)).length) := by
                simp only [List.nil_append, interSlash_cons2]
                simp only [List.length_cons, List.length_append]
                omega
              rw [e3] at hcapc
              exact hcapc
            rw [normGo_push_small cap (f2 + 1) c _ _ hc (by rw [h1]; exact hs_dot)
              (by rw [h1]; exact hs_dd) hbig
              (by
                rw [h1]
                have e1 : (47 :: interSlash ([] : List (List Nat))).length = 1 := by
                  simp [interSlash]
                have e2 : (c :: s2).length = s2.length + 1 := by simp
                rw [e1, e2]
                omega)]
            rw [h1, h2]
            rw [normGo_succ, if_pos rfl]
            have hout : (47 :: interSlash ([] : List (List Nat))) ++ c :: s2 =
                47 :: interSlash ([] ++ [c :: s2]) := rfl
            rw [hout]
            rw [ih ([] ++ [c :: s2]) cap f2
              (by omega)
              (fun u hu => hsegs u (List.mem_cons_of_mem _ hu))
              (by
                intro u hu
                have : u = c :: s2 := by simpa using hu
                subst this
                exact ⟨by simp, hs_47⟩)
              (by
                intro _
                rw [show (([] ++ [c :: s2] : List (List Nat))) ++ t :: ss =
                    [] ++ (c :: s2) :: t :: ss by simp]
                exact hcapc)]
            rw [show (([] ++ [c :: s2] : List (List Nat))) ++ t :: ss =
                [] ++ (c :: s2) :: t :: ss by simp]

/-- Claim C2 (amended): on a path with no `..` segment, a successful
normalization is idempotent and its output has no redundant separators: no
two adjacent slashes and no trailing slash except in the root path `/`.
(With `..` segments the pop leaves the popped separator behind and the claim
fails: see the counterexample.) -/
theorem c2_idempotent_no_dotdot (p : List Nat) (cap : Nat) (q : List Nat)
    (h1 : hasDotDotSeg p = false) (h2 : normalizePath p cap = some q) :
    normalizePath q cap = some q ∧ noAdjSlash q = true ∧
      (q ≠ [47] → q.getLast? ≠ some 47) := by
  have h2x : normGo cap p.length p (47 :: interSlash []) = some q := h2
  obtain ⟨done2, hok, hcap, rfl⟩ :=
    normGo_run1 p.length p [] q cap (Nat.le_refl _) h1 (by simp) (Or.inl rfl) h2x
  cases done2 with
  | nil =>
    refine ⟨rfl, rfl, ?_⟩
    intro hne
    exact absurd rfl hne
  | cons d ds =>
    have hcap2 : (47 :: interSlash (d :: ds)).length < cap := by
      rcases hcap with h | h
      · exact absurd h (by simp)
      · exact h
    refine ⟨?_, ?_, ?_⟩
    · show normGo cap (47 :: interSlash (d :: ds)).length
        (47 :: interSlash (d :: ds)) [47] = _
      rw [show (47 :: interSlash (d :: ds)).length =
          (interSlash (d :: ds)).length + 1 by simp]
      rw [normGo_succ, if_pos rfl]
      have hr := normGo_render (d :: ds) [] cap (interSlash (d :: ds)).length
        (Nat.le_refl _) hok (by simp) (fun _ => by simpa using hcap2)
      rw [show (47 :: interSlash ([] : List (List Nat))) = [47] from rfl] at hr
      simpa using hr
    · exact noAdjSlash_render (d :: ds) (fun u hu => ⟨(hok u hu).1, (hok u hu).2.1⟩)
    · intro _ hlast
      exact lastByte_render (d :: ds) (by simp)
        (fun u hu => ⟨(hok u hu).1, (hok u hu).2.1⟩) 47 hlast rfl

/-- Witness for the amended C2: the `..`-free path `/a//b` normalizes to
`/a/b`, which renormalizes to itself, has no adjacent slashes, and no
trailing slash. -/
theorem c2_idempotent_no_dotdot_witness :
    normalizePath [47, 97, 47, 98] 8 = some [47, 97, 47, 98] ∧
      noAdjSlash [47, 97, 47, 98] = true ∧
      ([47, 97, 47, 98] ≠ [47] → [47, 97, 47, 98].getLast? ≠ some 47) :=
  c2_idempotent_no_dotdot [47, 97, 47, 47, 98] 8 [47, 97, 47, 98]
    (by decide) (by decide)

/-- Adding a header that is not a close-Connection header does not change the
existence of one. -/
theorem keepAlive_pack (a b : Prop) (hdr : HeaderKV) (d2 : List HeaderKV)
    (P : HeaderKV → Prop) (hnot : ¬P hdr) :
    (a ↔ b ∨ ∃ h ∈ d2, P h) → (a ↔ b ∨ ∃ h ∈ hdr :: d2, P h) := by
  intro h0
  rw [h0]
  constructor
  · rintro (hb | ⟨x, hx, hP⟩)
    · exact Or.inl hb
    · exact Or.inr ⟨x, List.mem_cons_of_mem _ hx, hP⟩
  · rintro (hb | ⟨x, hx, hP⟩)
    · exact Or.inl hb
    · rcases List.mem_cons.mp hx with rfl | hx2
      · exact absurd hP hnot
      · exact Or.inr ⟨x, hx2, hP⟩

/-- The header loop leaves `isKeepAlive` at 0 exactly when it started at 0 or
one of the headers it appended is a close-Connection header; it only appends
headers and never touches the version view. -/
theorem parseHeadersLoop_keepAlive (buf : List Nat) (hE : Nat) :
    ∀ fuel hS info info2,
      parseHeadersLoop buf hE fuel hS info = Sum.inr info2 →
      ∃ ds, info2.headers = info.headers ++ ds ∧
        info2.version = info.version ∧
        (info2.isKeepAlive = 0 ↔
          info.isKeepAlive = 0 ∨ ∃ h ∈ ds, connCloseHdr buf h) := by
  intro fuel
  induction fuel with
  | zero =>
    intro hS info info2 h
    simp only [parseHeadersLoop] at h
    injection h with h
    subst h
    exact ⟨[], by simp, rfl, by simp⟩
  | succ fuel ih =>
    intro hS info info2 h
    simp only [parseHeadersLoop] at h
    split at h
    case isFalse =>
      injection h with h
      subst h
      exact ⟨[], by simp, rfl, by simp⟩
    case isTrue hlt =>
      split at h
      case h_1 =>
        injection h with h
        subst h
        exact ⟨[], by simp, rfl, by simp⟩
      case h_2 r hss =>
        split at h
        case isTrue =>
          injection h with h
          subst h
          exact ⟨[], by simp, rfl, by simp⟩
        case isFalse hne =>
          split at h
          case h_1 => cases h
          case h_2 colon hcolon =>
            split at h
            case isTrue => cases h
            case isFalse hvs =>
              split at h
              case isTrue hct =>
                obtain ⟨ds, hh, hv, hiff⟩ := ih _ _ _ h
                dsimp only at hh hv hiff
                refine ⟨(⟨⟨hS, colon - hS⟩,
                    ⟨skipSpacesUpto buf (colon + 1) (hS + r),
                      hS + r - skipSpacesUpto buf (colon + 1) (hS + r)⟩⟩ :
                    HeaderKV) :: ds, ?_, hv, ?_⟩
                · rw [hh]
                  simp
                · exact keepAlive_pack _ _ _ _ _
                    (by
                      intro hP
                      obtain ⟨h1, _, _⟩ := hP
                      dsimp only at h1
                      omega)
                    hiff
              case isFalse =>
                split at h
                case isTrue hcl =>
                  split at h
                  case isTrue => cases h
                  case isFalse hseen =>
                    split at h
                    case h_1 => cases h
                    case h_2 n hcv =>
                      obtain ⟨ds, hh, hv, hiff⟩ := ih _ _ _ h
                      dsimp only at hh hv hiff
                      refine ⟨(⟨⟨hS, colon - hS⟩,
                    ⟨skipSpacesUpto buf (colon + 1) (hS + r),
                      hS + r - skipSpacesUpto buf (colon + 1) (hS + r)⟩⟩ :
                    HeaderKV) :: ds, ?_, hv, ?_⟩
                      · rw [hh]
                        simp
                      · exact keepAlive_pack _ _ _ _ _
                          (by
                            intro hP
                            obtain ⟨h1, _, _⟩ := hP
                            dsimp only at h1
                            omega)
                          hiff
                case isFalse =>
                  split at h
                  case isTrue hcn =>
                    split at h
                    case isTrue hsc =>
                      obtain ⟨ds, hh, hv, hiff⟩ := ih _ _ _ h
                      dsimp only at hh hv hiff
                      refine ⟨(⟨⟨hS, colon - hS⟩,
                    ⟨skipSpacesUpto buf (colon + 1) (hS + r),
                      hS + r - skipSpacesUpto buf (colon + 1) (hS + r)⟩⟩ :
                    HeaderKV) :: ds, ?_, hv, ?_⟩
                      · rw [hh]
                        simp
                      · constructor
                        · intro _
                          exact Or.inr ⟨_, List.mem_cons_self _ _,
                            ⟨hcn.1, hcn.2, hsc⟩⟩
                        · intro _
                          exact hiff.mpr (Or.inl rfl)
                    case isFalse hsc =>
                      obtain ⟨ds, hh, hv, hiff⟩ := ih _ _ _ h
                      dsimp only at hh hv hiff
                      refine ⟨(⟨⟨hS, colon - hS⟩,
                    ⟨skipSpacesUpto buf (colon + 1) (hS + r),
                      hS + r - skipSpacesUpto buf (colon + 1) (hS + r)⟩⟩ :
                    HeaderKV) :: ds, ?_, hv, ?_⟩
                      · rw [hh]
                        simp
                      · exact keepAlive_pack _ _ _ _ _
                          (by
                            intro hP
                            obtain ⟨_, _, h3⟩ := hP
                            dsimp only at h3
                            exact absurd h3 (by simpa using hsc))
                          hiff
                  case isFalse hncn =>
                    obtain ⟨ds, hh, hv, hiff⟩ := ih _ _ _ h
                    dsimp only at hh hv hiff
                    refine ⟨(⟨⟨hS, colon - hS⟩,
                    ⟨skipSpacesUpto buf (colon + 1) (hS + r),
                      hS + r - skipSpacesUpto buf (colon + 1) (hS + r)⟩⟩ :
                    HeaderKV) :: ds, ?_, hv, ?_⟩
                    · rw [hh]
                      simp
                    · exact keepAlive_pack _ _ _ _ _
                        (by
                          intro hP
                          obtain ⟨h1, h2, _⟩ := hP
                          dsimp only at h1 h2
                          exact hncn ⟨h1, h2⟩)
                        hiff

/-- No handler modifies `shouldClose`: the emitted flag is decided by
`isKeepAlive` alone. -/
theorem requestHandler_shouldClose (buf : List Nat) (info : HttpInfo)
    (fs : List Nat → FileOutcome) :
    (requestHandler buf info fs).shouldClose =
      if info.isKeepAlive = 0 then 1 else 0 := by
  unfold requestHandler apiHandler fileHandler setNotFoundError
    setForbiddenFileRoute setInternalServerError initializeResponse
  dsimp only
  by_cases hka : info.isKeepAlive = 0 <;>
    simp only [hka, reduceIte] <;>
    (repeat' split) <;>
    rfl

/-- Unfolding equation for one `strncmpEq` comparison step. -/
theorem strncmpEq_succ (buf : List Nat) (i : Nat) (lit : List Nat) (left k : Nat) :
    strncmpEq buf i lit (left + 1) k =
      if byteAt buf (i + k) ≠ lit.getD k 0 then false
      else if byteAt buf (i + k) = 0 then true
      else strncmpEq buf i lit left (k + 1) := rfl

/-- A version token whose bytes read `HTTP/1.0` fails the version
comparison. -/
theorem strncmp_http10_false (buf : List Nat) (vS vLen : Nat)
    (hsl : sliceBytes buf vS vLen = HTTP10) :
    strncmpEq buf vS HTTP11 vLen 0 = false := by
  have h8 : (sliceBytes buf vS vLen).length = 8 := by rw [hsl]; rfl
  have hvlen : 8 ≤ vLen := by
    unfold sliceBytes at h8
    rw [List.length_take, List.length_drop] at h8
    have := Nat.min_le_left vLen (buf.length - vS)
    omega
  have hby : ∀ j, j < 8 → byteAt buf (vS + j) = HTTP10.getD j 0 := by
    intro j hj
    have e1 : byteAt buf (vS + j) = (buf.drop vS).getD j 0 := by
      unfold byteAt
      rw [List.getD_eq_getElem?_getD, List.getD_eq_getElem?_getD,
        List.getElem?_drop]
    have e2 : ((buf.drop vS).take vLen).getD j 0 = (buf.drop vS).getD j 0 := by
      rw [List.getD_eq_getElem?_getD, List.getD_eq_getElem?_getD,
        List.getElem?_take]
      simp [show j < vLen by omega]
    rw [e1, ← e2]
    rw [show (buf.drop vS).take vLen = sliceBytes buf vS vLen from rfl, hsl]
  obtain ⟨l8, rfl⟩ : ∃ l8, vLen = l8 + 8 := ⟨vLen - 8, by omega⟩
  have b0 : byteAt buf (vS + 0) = 72 := by rw [hby 0 (by omega)]; rfl
  have b1 : byteAt buf (vS + 1) = 84 := by rw [hby 1 (by omega)]; rfl
  have b2 : byteAt buf (vS + 2) = 84 := by rw [hby 2 (by omega)]; rfl
  have b3 : byteAt buf (vS + 3) = 80 := by rw [hby 3 (by omega)]; rfl
  have b4 : byteAt buf (vS + 4) = 47 := by rw [hby 4 (by omega)]; rfl
  have b5 : byteAt buf (vS + 5) = 49 := by rw [hby 5 (by omega)]; rfl
  have b6 : byteAt buf (vS + 6) = 46 := by rw [hby 6 (by omega)]; rfl
  have b7 : byteAt buf (vS + 7) = 48 := by rw [hby 7 (by omega)]; rfl
  rw [show l8 + 8 = (l8 + 7) + 1 from rfl, strncmpEq_succ, b0]
  rw [if_neg (by decide : ¬((72 : Nat) ≠ HTTP11.getD 0 0))]
  rw [if_neg (by decide : ¬((72 : Nat) = 0))]
  rw [show (0 : Nat) + 1 = 1 from rfl]
  rw [show l8 + 7 = (l8 + 6) + 1 from rfl, strncmpEq_succ, b1]
  rw [if_neg (by decide : ¬((84 : Nat) ≠ HTTP11.getD 1 0))]
  rw [if_neg (by decide : ¬((84 : Nat) = 0))]
  rw [show (1 : Nat) + 1 = 2 from rfl]
  rw [show l8 + 6 = (l8 + 5) + 1 from rfl, strncmpEq_succ, b2]
  rw [if_neg (by decide : ¬((84 : Nat) ≠ HTTP11.getD 2 0))]
  rw [if_neg (by decide : ¬((84 : Nat) = 0))]
  rw [show (2 : Nat) + 1 = 3 from rfl]
  rw [show l8 + 5 = (l8 + 4) + 1 from rfl, strncmpEq_succ, b3]
  rw [if_neg (by decide : ¬((80 : Nat) ≠ HTTP11.getD 3 0))]
  rw [if_neg (by decide : ¬((80 : Nat) = 0))]
  rw [show (3 : Nat) + 1 = 4 from rfl]
  rw [show l8 + 4 = (l8 + 3) + 1 from rfl, strncmpEq_succ, b4]
  rw [if_neg (by decide : ¬((47 : Nat) ≠ HTTP11.getD 4 0))]
  rw [if_neg (by decide : ¬((47 : Nat) = 0))]
  rw [show (4 : Nat) + 1 = 5 from rfl]
  rw [show l8 + 3 = (l8 + 2) + 1 from rfl, strncmpEq_succ, b5]
  rw [if_neg (by decide : ¬((49 : Nat) ≠ HTTP11.getD 5 0))]
  rw [if_neg (by decide : ¬((49 : Nat) = 0))]
  rw [show (5 : Nat) + 1 = 6 from rfl]
  rw [show l8 + 2 = (l8 + 1) + 1 from rfl, strncmpEq_succ, b6]
  rw [if_neg (by decide : ¬((46 : Nat) ≠ HTTP11.getD 6 0))]
  rw [if_neg (by decide : ¬((46 : Nat) = 0))]
  rw [show (6 : Nat) + 1 = 7 from rfl]
  rw [show l8 + 1 = l8 + 1 from rfl, strncmpEq_succ, b7]
  rw [if_pos (by decide : ((48 : Nat) ≠ HTTP11.getD 7 0))]

/-- On a successful parse the version comparison passed and `isKeepAlive`
records exactly whether some parsed header is a close-Connection header. -/
theorem parser_ok_keepAlive (buf : List Nat) (hE : Nat)
    (hok : (requestAndHeaderParser buf hE).1 = .OK) :
    strncmpEq buf (requestAndHeaderParser buf hE).2.version.start HTTP11
        (requestAndHeaderParser buf hE).2.version.len 0 = true ∧
      ((requestAndHeaderParser buf hE).2.isKeepAlive = 0 ↔
        ∃ h ∈ (requestAndHeaderParser buf hE).2.headers, connCloseHdr buf h) := by
  unfold requestAndHeaderParser at hok ⊢
  cases hrl : requestLine buf with
  | none =>
    rw [hrl] at hok
    simp at hok
  | some t =>
    obtain ⟨mv, pv⟩ := t
    obtain ⟨p, v⟩ := pv
    rw [hrl] at hok
    dsimp only at hok ⊢
    by_cases hver : strncmpEq buf v.start HTTP11 v.len 0 = false
    · rw [if_pos hver] at hok
      simp at hok
    · rw [if_neg hver] at hok ⊢
      have hver1 : strncmpEq buf v.start HTTP11 v.len 0 = true := by
        cases hv0 : strncmpEq buf v.start HTTP11 v.len 0
        · exact absurd hv0 hver
        · rfl
      by_cases hge : v.start + v.len + 2 ≥ hE
      · rw [if_pos hge] at hok
        simp at hok
      · rw [if_neg hge] at hok ⊢
        revert hok
        cases hloop : parseHeadersLoop buf hE (hE - (v.start + v.len + 2))
            (v.start + v.len + 2) _ with
        | inl err =>
          intro hok
          obtain ⟨r, info9⟩ := err
          dsimp only at hok
          rcases parseHeadersLoop_codes buf hE _ _ _ _ _ hloop with hr | hr <;>
            (rw [hr] at hok; cases hok)
        | inr info2 =>
          intro hok
          dsimp only at hok ⊢
          obtain ⟨ds, hh, hv2, hiff⟩ :=
            parseHeadersLoop_keepAlive buf hE _ _ _ _ hloop
          dsimp only at hh hv2 hiff
          rw [List.nil_append] at hh
          by_cases hbody : byteAt buf 0 = 71 ∧
              ({ info2 with headerCnt := info2.headers.length } : HttpInfo).contentLength ≠ 0
          · rw [if_pos hbody] at hok
            cases hok
          · rw [if_neg hbody] at hok ⊢
            have hcv : (checkIfApi buf
                { info2 with headerCnt := info2.headers.length }).version =
                info2.version := by
              unfold checkIfApi
              split
              · rfl
              · split <;> rfl
            have hck : (checkIfApi buf
                { info2 with headerCnt := info2.headers.length }).isKeepAlive =
                info2.isKeepAlive := by
              unfold checkIfApi
              split
              · rfl
              · split <;> rfl
            have hch : (checkIfApi buf
                { info2 with headerCnt := info2.headers.length }).headers =
                info2.headers := by
              unfold checkIfApi
              split
              · rfl
              · split <;> rfl
            rw [hcv, hck, hch, hv2, hh]
            refine ⟨hver1, ?_⟩
            rw [hiff]
            simp [initializeHttpInfo]

/-- Claim C5: the `Connection` header of the emitted response is `close` if
and only if the request was HTTP/1.0, or its Connection header value
contained `close` case-insensitively, or the response is an error response.
(An HTTP/1.0 version token always fails the version check, so it lands in
the error disjunct; on the success path the flag tracks exactly the parsed
close-Connection headers.) -/
theorem c5_keep_alive_contract (buf : List Nat) (m normCap : Nat)
    (fs : List Nat → FileOutcome) :
    Emitted.connClose (processRequest buf m normCap fs) = true ↔
      (sliceBytes buf (requestAndHeaderParser buf (m + 2)).2.version.start
          (requestAndHeaderParser buf (m + 2)).2.version.len = HTTP10 ∨
        (∃ h ∈ (requestAndHeaderParser buf (m + 2)).2.headers,
          connCloseHdr buf h) ∨
        Emitted.isError (processRequest buf m normCap fs) = true) := by
  unfold processRequest
  dsimp only [bodyParser]
  by_cases hnok : (requestAndHeaderParser buf (m + 2)).1 ≠ .OK
  · rw [if_pos hnok]
    simp [Emitted.connClose, Emitted.isError]
  · rw [if_neg hnok]
    have hok : (requestAndHeaderParser buf (m + 2)).1 = .OK := not_not.mp hnok
    obtain ⟨hver1, hiff⟩ := parser_ok_keepAlive buf (m + 2) hok
    have h10 : sliceBytes buf (requestAndHeaderParser buf (m + 2)).2.version.start
        (requestAndHeaderParser buf (m + 2)).2.version.len ≠ HTTP10 := by
      intro hsl
      have hf := strncmp_http10_false buf _ _ hsl
      rw [hver1] at hf
      cases hf
    cases hdec : decodeUrl (sliceBytes buf
        (requestAndHeaderParser buf (m + 2)).2.path.start
        (requestAndHeaderParser buf (m + 2)).2.path.len) with
    | none =>
      simp [Emitted.connClose, Emitted.isError]
    | some dec =>
      cases hnorm : normalizePath dec normCap with
      | none =>
        simp only [hnorm]
        simp [Emitted.connClose, Emitted.isError]
      | some norm =>
        simp only [hnorm]
        simp only [Emitted.connClose, Emitted.isError, sendHeadersConnClose]
        rw [requestHandler_shouldClose]
        dsimp only
        by_cases hka : (requestAndHeaderParser buf (m + 2)).2.isKeepAlive = 0
        · rw [if_pos hka]
          simp only [Bool.false_eq_true, or_false]
          constructor
          · intro _
            exact Or.inr (hiff.mp hka)
          · intro _
            decide
        · rw [if_neg hka]
          simp only [Bool.false_eq_true, or_false]
          constructor
          · intro hcon
            simp at hcon
          · rintro (hsl | hex)
            · exact absurd hsl h10
            · exact absurd (hiff.mpr hex) hka

/-- Witness for C5 on a concrete keep-alive request: no HTTP/1.0 token, no
close-Connection header, no error, and the emitted connection header is
keep-alive. -/
theorem c5_keep_alive_contract_witness :
    Emitted.connClose (processRequest C9Buf 42 64 fsAbsent) = true ↔
      (sliceBytes C9Buf (requestAndHeaderParser C9Buf 44).2.version.start
          (requestAndHeaderParser C9Buf 44).2.version.len = HTTP10 ∨
        (∃ h ∈ (requestAndHeaderParser C9Buf 44).2.headers,
          connCloseHdr C9Buf h) ∨
        Emitted.isError (processRequest C9Buf 42 64 fsAbsent) = true) :=
  c5_keep_alive_contract C9Buf 42 64 fsAbsent
